import Mathlib

/-!
Verification of the autoport core against its specification.

This file gives a shallow embedding, in Lean 4, of the Go code of the
autoport repository: the deterministic port allocator (`pkg/port/port.go`),
the dotenv parser (`internal/env/env.go`), the scanner and selection policy
(`internal/scanner/scanner.go`, `internal/app/app.go`), the lockfile store
(`internal/lockfile/lockfile.go`) and the cross-repository link resolver
(`internal/app/linking.go`).  Pure Go functions become Lean functions;
effectful collaborators (filesystem walks, `os.Stat`, `net/url` parsing,
git branch resolution, socket probing) become explicit function parameters,
so every definition stays executable.  Go `int` is modelled as `Int`
(arbitrary precision: the code never approaches 64-bit overflow for
realistic port ranges and seeds), Go `uint32` as `Nat`, Go's `%` on ints as
`Int.tmod` (truncated remainder, Go's semantics), Go maps as association
lists with overwrite-on-assign and first-match lookup, and Go string
operations are modelled at ASCII precision (all keys, ranges and messages
involved are ASCII).
-/

/-! ## String primitives (models of Go `strings` / `strconv` helpers) -/

/-- Model of the Go byte predicate used by `strings.TrimSpace` (ASCII part
of `unicode.IsSpace`). -/
def isSpaceChar (c : Char) : Bool :=
  c == ' ' || c == '\t' || c == '\n' || c == '\r' || c.toNat == 11 || c.toNat == 12

/-- Model of `strings.TrimSpace` (ASCII whitespace). -/
def trimSpace (s : String) : String :=
  String.mk (((s.data.dropWhile isSpaceChar).reverse.dropWhile isSpaceChar).reverse)

/-- Whether the first list is a prefix of the second (model of
`strings.HasPrefix` on the char level). -/
def listIsPref : List Char → List Char → Bool
  | [], _ => true
  | _ :: _, [] => false
  | a :: as, b :: bs => a == b && listIsPref as bs

/-- Model of `strings.HasPrefix`. -/
def strStarts (s pre : String) : Bool := listIsPref pre.data s.data

/-- Model of `strings.HasSuffix`. -/
def strEndsWith (s suf : String) : Bool := listIsPref suf.data.reverse s.data.reverse

/-- ASCII uppercase of one character (model of the ASCII part of
`unicode.ToUpper`, which is all the code relies on for env keys). -/
def toUpperChar (c : Char) : Char :=
  if 'a' ≤ c ∧ c ≤ 'z' then Char.ofNat (c.toNat - 32) else c

/-- ASCII lowercase of one character. -/
def toLowerChar (c : Char) : Char :=
  if 'A' ≤ c ∧ c ≤ 'Z' then Char.ofNat (c.toNat + 32) else c

/-- Model of `strings.ToUpper` (ASCII). -/
def toUpperStr (s : String) : String := String.mk (s.data.map toUpperChar)

/-- Model of `strings.ToLower` (ASCII). -/
def toLowerStr (s : String) : String := String.mk (s.data.map toLowerChar)

/-- Model of `strings.EqualFold` at ASCII precision: case-insensitive
equality. -/
def eqFold (a b : String) : Bool := toLowerStr a == toLowerStr b

/-- Split a char list at the first occurrence of `c`; `none` when `c` does
not occur.  Models `strings.SplitN(s, c, 2)` (which the code always guards
with a length-2 check). -/
def splitCharFirst (c : Char) : List Char → Option (List Char × List Char)
  | [] => none
  | x :: xs =>
    if x == c then some ([], xs)
    else (splitCharFirst c xs).map (fun p => (x :: p.1, p.2))

/-- Model of `strings.SplitN(s, "=", 2)` returning the two parts, or `none`
when the separator is absent (the Go callers skip that case). -/
def splitFirstEq (s : String) : Option (String × String) :=
  (splitCharFirst '=' s.data).map (fun p => (String.mk p.1, String.mk p.2))

/-- Split a char list at every occurrence of `c` (model of
`strings.Split`). -/
def splitAll (c : Char) : List Char → List (List Char)
  | [] => [[]]
  | x :: xs =>
    match splitAll c xs with
    | [] => [[x]]
    | p :: ps => if x == c then [] :: p :: ps else (x :: p) :: ps

/-- Model of `strings.Split(s, "-")`. -/
def splitDash (s : String) : List String := (splitAll '-' s.data).map String.mk

/-- Value of a non-empty all-digit char list, `none` otherwise. -/
def digitsVal (l : List Char) : Option Nat :=
  if l.isEmpty then none
  else l.foldl (fun acc c =>
    acc.bind (fun a => if c.isDigit then some (a * 10 + (c.toNat - 48)) else none)) (some 0)

/-- Model of `strconv.Atoi`: optional sign, then decimal digits (the 64-bit
range check is dropped; the embedding uses unbounded integers). -/
def Atoi (s : String) : Option Int :=
  match s.data with
  | '-' :: rest => (digitsVal rest).map (fun n => -(n : Int))
  | '+' :: rest => (digitsVal rest).map (fun n => (n : Int))
  | l => (digitsVal l).map (fun n => (n : Int))

/-- Byte-order comparison of char lists; on ASCII (and in fact on all of
Unicode, since UTF-8 preserves code-point order) this agrees with Go's
string `<=`. -/
def leChars : List Char → List Char → Bool
  | [], _ => true
  | _ :: _, [] => false
  | a :: as, b :: bs =>
    if a.toNat < b.toNat then true
    else if b.toNat < a.toNat then false
    else leChars as bs

/-- Go string order, as used by `sort.Strings`. -/
def leStr (a b : String) : Bool := leChars a.data b.data

/-- Insert into a list sorted by `le` (helper of the insertion sort that
models `sort.Strings` / `sort.Slice`). -/
def insertLe (le : α → α → Bool) (x : α) : List α → List α
  | [] => [x]
  | y :: ys => if le x y then x :: y :: ys else y :: insertLe le x ys

/-- Insertion sort; models Go's `sort` package calls (the code only relies
on the output being sorted, which any correct sort provides). -/
def sortLe (le : α → α → Bool) : List α → List α
  | [] => []
  | x :: xs => insertLe le x (sortLe le xs)

/-- Model of `sort.Strings`. -/
def sortStrings (l : List String) : List String := sortLe leStr l

/-- First-match lookup in an association list (model of a Go map read). -/
def lookupAssoc : List (String × α) → String → Option α
  | [], _ => none
  | (k, v) :: rest, q => if k == q then some v else lookupAssoc rest q

/-- Overwrite-or-append update of an association list (model of a Go map
assignment `m[k] = v`). -/
def upsertAssoc : List (String × α) → String → α → List (String × α)
  | [], k, v => [(k, v)]
  | (k', v') :: rest, k, v =>
    if k' == k then (k, v) :: rest else (k', v') :: upsertAssoc rest k v

/-- Append-if-absent update of a string list (model of a Go map of unit
values used as a set). -/
def insertSet (l : List String) (k : String) : List String :=
  if l.contains k then l else l ++ [k]

/-! ## pkg/port/port.go -/

/-- Inclusive port range (`port.Range`). -/
structure Range where
  Start : Int
  End : Int
deriving Repr, DecidableEq

/-- Number of ports in the range (`Range.Size`). -/
def Range.Size (r : Range) : Int := r.End - r.Start + 1

/-- Model of `port.ParseRange`: parse `"start-end"`. -/
def ParseRange (spec : String) : Except String Range :=
  match splitDash spec with
  | [a, b] =>
    match Atoi a with
    | none => Except.error ("invalid start port " ++ a)
    | some s =>
      match Atoi b with
      | none => Except.error ("invalid end port " ++ b)
      | some e =>
        if s > e then Except.error "start port must be less than or equal to end port"
        else Except.ok ⟨s, e⟩
  | _ => Except.error ("invalid range format " ++ spec ++ ", expected start-end")

/-- Model of `port.Allocator`: `Seed` is the Go `uint32` seed (as a `Nat`),
`Rng` the field `Range`, and `IsFree` the injected availability check
(`DefaultIsFree` binds a socket and is effectful, so the check is always a
parameter here). -/
structure Allocator where
  Seed : Nat
  Rng : Range
  IsFree : Int → Bool

/-- Error message of `PortFor` when a full pass finds no port. -/
def noFreePortsMsg (r : Range) : String :=
  "no free ports in range " ++ toString r.Start ++ "-" ++ toString r.End

/-- Scan loop of `Allocator.PortFor`: `fuel` counts the remaining
iterations (`size` initially), `i` is the Go loop variable. -/
def portForLoop (isFree : Int → Bool) (start size base : Int) : Nat → Int → Option Int
  | 0, _ => none
  | Nat.succ fuel, i =>
    let p := start + Int.tmod (base + i) size
    if isFree p then some p else portForLoop isFree start size base fuel (i + 1)

/-- Model of `Allocator.PortFor` (port.go lines 80-99): guard the range
size, then scan one full circular pass starting at the preferred slot. -/
def Allocator.PortFor (a : Allocator) (index : Int) : Except String Int :=
  let size := a.Rng.Size
  if size ≤ 0 then Except.error ("invalid range size: " ++ toString size)
  else
    match portForLoop a.IsFree a.Rng.Start size ((a.Seed : Int) + index) size.toNat 0 with
    | some p => Except.ok p
    | none => Except.error (noFreePortsMsg a.Rng)

/-- Scan position of port `q` in the circular forward scan of `r` that
starts at the preferred slot of `base = seed + index`: 0 for the preferred
port itself, 1 for its circular successor, and so on. -/
def scanPos (base : Int) (r : Range) (q : Int) : Int :=
  (q - r.Start - base) % r.Size

example : ParseRange "3000-4000" = Except.ok ⟨3000, 4000⟩ := by rfl
example : (ParseRange "3000").isOk = false := by decide
example : (ParseRange "abc-4000").isOk = false := by decide
example : (ParseRange "4000-3000").isOk = false := by decide

example :
    (Allocator.PortFor ⟨3, ⟨10, 14⟩, fun p => p == 11⟩ 0) = Except.ok 11 := by rfl
example :
    (Allocator.PortFor ⟨3, ⟨10, 14⟩, fun p => p == 13⟩ 0) = Except.ok 13 := by rfl
example :
    (Allocator.PortFor ⟨3, ⟨10, 14⟩, fun _ => false⟩ 0).isOk = false := by decide

/-! ## Characterization of the allocator scan loop -/

/-- The scan loop returns `none` exactly when no slot of the pass is
accepted. -/
theorem portForLoop_none_iff (isFree : Int → Bool) (start size base : Int) :
    ∀ (fuel : Nat) (i : Int),
      portForLoop isFree start size base fuel i = none ↔
        ∀ j : Nat, j < fuel →
          isFree (start + Int.tmod (base + (i + (j : Int))) size) = false := by
  intro fuel
  induction fuel with
  | zero => intro i; simp [portForLoop]
  | succ n ih =>
    intro i
    simp only [portForLoop]
    cases h : isFree (start + Int.tmod (base + i) size) with
    | true =>
      simp only [if_pos rfl, h]
      constructor
      · intro hc; exact absurd hc (by simp)
      · intro hall
        have h0 := hall 0 (Nat.succ_pos n)
        have harg : base + (i + ((0 : Nat) : Int)) = base + i := by push_cast; ring
        rw [harg] at h0
        rw [h] at h0
        exact absurd h0 (by simp)
    | false =>
      simp only [h, if_neg, Bool.false_eq_true, not_false_eq_true, ite_false]
      rw [ih (i + 1)]
      constructor
      · intro H j hj
        match j with
        | 0 =>
          have harg : base + (i + ((0 : Nat) : Int)) = base + i := by push_cast; ring
          rw [harg]; exact h
        | Nat.succ k =>
          have harg : base + (i + ((Nat.succ k : Nat) : Int)) = base + (i + 1 + (k : Int)) := by
            push_cast; ring
          rw [harg]
          exact H k (by omega)
      · intro H j hj
        have harg : base + (i + 1 + (j : Int)) = base + (i + ((j + 1 : Nat) : Int)) := by
          push_cast; ring
        rw [harg]
        exact H (j + 1) (by omega)

/-- The scan loop returns `some p` only for the first accepted slot of the
pass. -/
theorem portForLoop_some_spec (isFree : Int → Bool) (start size base : Int) :
    ∀ (fuel : Nat) (i : Int) (p : Int),
      portForLoop isFree start size base fuel i = some p →
        ∃ j : Nat, j < fuel ∧
          p = start + Int.tmod (base + (i + (j : Int))) size ∧
          isFree p = true ∧
          ∀ k : Nat, k < j →
            isFree (start + Int.tmod (base + (i + (k : Int))) size) = false := by
  intro fuel
  induction fuel with
  | zero => intro i p hc; simp [portForLoop] at hc
  | succ n ih =>
    intro i p hp
    simp only [portForLoop] at hp
    cases h : isFree (start + Int.tmod (base + i) size) with
    | true =>
      rw [h, if_pos rfl] at hp
      have hp' : start + Int.tmod (base + i) size = p := Option.some.inj hp
      refine ⟨0, Nat.succ_pos n, ?_, ?_, ?_⟩
      · have harg : base + (i + ((0 : Nat) : Int)) = base + i := by push_cast; ring
        rw [harg]; exact hp'.symm
      · rw [← hp']; exact h
      · intro k hk; omega
    | false =>
      rw [h, if_neg (by simp)] at hp
      obtain ⟨j, hj, hpj, hfree, hmin⟩ := ih (i + 1) p hp
      refine ⟨j + 1, by omega, ?_, hfree, ?_⟩
      · have harg : base + (i + ((j + 1 : Nat) : Int)) = base + (i + 1 + (j : Int)) := by
          push_cast; ring
        rw [harg]; exact hpj
      · intro k hk
        match k with
        | 0 =>
          have harg : base + (i + ((0 : Nat) : Int)) = base + i := by push_cast; ring
          rw [harg]; exact h
        | Nat.succ m =>
          have harg : base + (i + ((Nat.succ m : Nat) : Int)) = base + (i + 1 + (m : Int)) := by
            push_cast; ring
          rw [harg]
          exact hmin m (by omega)

/-- Every scanned slot lies inside the inclusive range. -/
theorem slot_mem_range (r : Range) (base : Int) (hbase : 0 ≤ base) (hs : 0 < r.Size)
    (t : Int) (ht : 0 ≤ t) :
    r.Start ≤ r.Start + Int.tmod (base + t) r.Size ∧
      r.Start + Int.tmod (base + t) r.Size ≤ r.End := by
  have hnn : (0 : Int) ≤ base + t := by omega
  rw [Int.tmod_eq_emod hnn (le_of_lt hs)]
  have h1 : 0 ≤ (base + t) % r.Size := Int.emod_nonneg _ (by omega)
  have h2 : (base + t) % r.Size < r.Size := Int.emod_lt_of_pos _ hs
  have hEnd : r.End = r.Start + r.Size - 1 := by
    simp only [Range.Size]; ring
  omega

/-- Every port of the range is the slot scanned at position `scanPos`. -/
theorem range_mem_slot (r : Range) (base : Int) (hbase : 0 ≤ base) (hs : 0 < r.Size)
    (q : Int) (h1 : r.Start ≤ q) (h2 : q ≤ r.End) :
    ∃ j : Nat, (j : Int) < r.Size ∧ (j : Int) = scanPos base r q ∧
      q = r.Start + Int.tmod (base + (j : Int)) r.Size := by
  have hpos : 0 ≤ scanPos base r q := Int.emod_nonneg _ (by simp only [Range.Size]; omega)
  have hlt : scanPos base r q < r.Size := Int.emod_lt_of_pos _ hs
  refine ⟨(scanPos base r q).toNat, by omega, by omega, ?_⟩
  have hcast : ((scanPos base r q).toNat : Int) = scanPos base r q := by omega
  rw [hcast]
  have hnn : (0 : Int) ≤ base + scanPos base r q := by omega
  rw [Int.tmod_eq_emod hnn (le_of_lt hs)]
  simp only [scanPos]
  have hEnd : r.End = r.Start + r.Size - 1 := by simp only [Range.Size]; ring
  have : (base + (q - r.Start - base) % r.Size) % r.Size = (q - r.Start) % r.Size := by
    rw [Int.add_emod, Int.emod_emod_of_dvd _ dvd_rfl, ← Int.add_emod]
    ring_nf
  rw [this, Int.emod_eq_of_lt (by omega) (by omega)]
  ring

/-- The scan position of the slot scanned at offset `j` is `j` itself (for
`j` within one pass). -/
theorem scanPos_slot (r : Range) (base : Int) (hbase : 0 ≤ base) (hs : 0 < r.Size)
    (j : Nat) (hj : (j : Int) < r.Size) :
    scanPos base r (r.Start + Int.tmod (base + (j : Int)) r.Size) = (j : Int) := by
  have hnn : (0 : Int) ≤ base + (j : Int) := by omega
  rw [Int.tmod_eq_emod hnn (le_of_lt hs)]
  simp only [scanPos]
  have : r.Start + (base + (j : Int)) % r.Size - r.Start - base =
      (base + (j : Int)) % r.Size - base := by ring
  rw [this]
  have h2 : ((base + (j : Int)) % r.Size - base) % r.Size = ((j : Int)) % r.Size := by
    rw [Int.sub_emod, Int.emod_emod_of_dvd _ dvd_rfl, ← Int.sub_emod]
    ring_nf
  rw [h2, Int.emod_eq_of_lt (by omega) hj]

/-- C1: for every seed, non-negative zero-based key index, and range of
positive size, `Allocator.PortFor` returns the preferred port
`range.Start + (seed + index) mod range.Size` whenever the availability
check accepts it; otherwise it returns the first accepted port in forward
circular scan order starting just after the preferred slot (ports at
strictly smaller scan positions are all rejected), and it returns the
"no free ports" error exactly when no port of the range is accepted within
one full pass. -/
theorem portFor_preferred_then_circular_scan
    (seed : Nat) (index : Int) (hindex : 0 ≤ index) (r : Range) (hr : 0 < r.Size)
    (isFree : Int → Bool) :
    (isFree (r.Start + Int.tmod ((seed : Int) + index) r.Size) = true →
       Allocator.PortFor ⟨seed, r, isFree⟩ index =
         Except.ok (r.Start + Int.tmod ((seed : Int) + index) r.Size)) ∧
    (∀ p, Allocator.PortFor ⟨seed, r, isFree⟩ index = Except.ok p →
       isFree p = true ∧ r.Start ≤ p ∧ p ≤ r.End ∧
       ∀ q, r.Start ≤ q → q ≤ r.End →
         scanPos ((seed : Int) + index) r q < scanPos ((seed : Int) + index) r p →
         isFree q = false) ∧
    (Allocator.PortFor ⟨seed, r, isFree⟩ index = Except.error (noFreePortsMsg r) ↔
       ∀ q, r.Start ≤ q → q ≤ r.End → isFree q = false) := by
  have hbase : (0 : Int) ≤ (seed : Int) + index := by
    have : (0 : Int) ≤ (seed : Int) := Int.ofNat_nonneg seed
    omega
  have hPF : Allocator.PortFor ⟨seed, r, isFree⟩ index =
      match portForLoop isFree r.Start r.Size ((seed : Int) + index) r.Size.toNat 0 with
      | some p => Except.ok p
      | none => Except.error (noFreePortsMsg r) := by
    simp only [Allocator.PortFor]
    rw [if_neg (by omega)]
  refine ⟨?_, ?_, ?_⟩
  · -- preferred port accepted
    intro hfree
    rw [hPF]
    obtain ⟨m, hm⟩ : ∃ m, r.Size.toNat = m + 1 := ⟨r.Size.toNat - 1, by omega⟩
    rw [hm]
    simp only [portForLoop]
    rw [show (seed : Int) + index + 0 = (seed : Int) + index from by ring, hfree]
    simp
  · -- any returned port: accepted, in range, first in scan order
    intro p hp
    rw [hPF] at hp
    cases hloop : portForLoop isFree r.Start r.Size ((seed : Int) + index) r.Size.toNat 0 with
    | none => rw [hloop] at hp; exact absurd hp (by simp)
    | some p' =>
      rw [hloop] at hp
      have hpp : p' = p := by exact Except.ok.inj hp
      subst hpp
      obtain ⟨j, hj, hpj, hfree, hmin⟩ :=
        portForLoop_some_spec isFree r.Start r.Size ((seed : Int) + index)
          r.Size.toNat 0 p' hloop
      rw [show (0 : Int) + (j : Int) = (j : Int) from by ring] at hpj
      have hjlt : (j : Int) < r.Size := by omega
      have hmem := slot_mem_range r ((seed : Int) + index) hbase hr (j : Int) (by omega)
      refine ⟨hfree, by rw [hpj]; exact hmem.1, by rw [hpj]; exact hmem.2, ?_⟩
      intro q hq1 hq2 hlt
      obtain ⟨k, hklt, hkeq, hqslot⟩ :=
        range_mem_slot r ((seed : Int) + index) hbase hr q hq1 hq2
      have hppos : scanPos ((seed : Int) + index) r p' = (j : Int) := by
        rw [hpj]; exact scanPos_slot r ((seed : Int) + index) hbase hr j hjlt
      have hkj : k < j := by
        rw [hppos] at hlt; rw [← hkeq] at hlt; omega
      have := hmin k hkj
      rw [show (0 : Int) + (k : Int) = (k : Int) from by ring] at this
      rw [hqslot]; exact this
  · -- error iff the whole range is rejected
    constructor
    · intro herr q hq1 hq2
      rw [hPF] at herr
      cases hloop : portForLoop isFree r.Start r.Size ((seed : Int) + index) r.Size.toNat 0 with
      | some p' => rw [hloop] at herr; exact absurd herr (by simp)
      | none =>
        have hall := (portForLoop_none_iff isFree r.Start r.Size ((seed : Int) + index)
          r.Size.toNat 0).mp hloop
        obtain ⟨k, hklt, hkeq, hqslot⟩ :=
          range_mem_slot r ((seed : Int) + index) hbase hr q hq1 hq2
        have := hall k (by omega)
        rw [show (0 : Int) + (k : Int) = (k : Int) from by ring] at this
        rw [hqslot]; exact this
    · intro hall
      rw [hPF]
      have hnone : portForLoop isFree r.Start r.Size ((seed : Int) + index) r.Size.toNat 0
          = none := by
        rw [portForLoop_none_iff]
        intro j hj
        rw [show (0 : Int) + (j : Int) = (j : Int) from by ring]
        have hmem := slot_mem_range r ((seed : Int) + index) hbase hr (j : Int) (by omega)
        exact hall _ hmem.1 hmem.2
      rw [hnone]

/-- Witness for C1 at a concrete input: seed 3, index 0, range 10-14; when
the preferred port 13 is accepted it is returned, and when nothing is
accepted the scan fails with the "no free ports" error. -/
theorem portFor_preferred_then_circular_scan_witness :
    (0 : Int) ≤ 0 ∧ 0 < Range.Size ⟨10, 14⟩ ∧
      Allocator.PortFor ⟨3, ⟨10, 14⟩, fun p => p == 13⟩ 0 = Except.ok 13 ∧
      Allocator.PortFor ⟨3, ⟨10, 14⟩, fun _ => false⟩ 0 =
        Except.error (noFreePortsMsg ⟨10, 14⟩) := by
  refine ⟨le_refl 0, by decide, ?_, ?_⟩
  · exact (portFor_preferred_then_circular_scan 3 0 (le_refl 0) ⟨10, 14⟩ (by decide)
      (fun p => p == 13)).1 (by decide)
  · exact (portFor_preferred_then_circular_scan 3 0 (le_refl 0) ⟨10, 14⟩ (by decide)
      (fun _ => false)).2.2.mpr (fun q _ _ => rfl)

/-! ## internal/env/env.go -/

/-- Model of `env.stripQuotes`: drop one matching pair of surrounding
double or single quotes. -/
def stripQuotes (value : String) : String :=
  let l := value.data
  if l.length < 2 then value
  else if (l.head? == some '"' && l.getLast? == some '"')
      || (l.head? == some '\'' && l.getLast? == some '\'') then
    String.mk ((l.drop 1).dropLast)
  else value

/-- One iteration of the `env.Parse` scan: trim the line, skip blanks and
comments, split at the first `=`, trim the key and value. -/
def parseLine (line : String) : Option (String × String) :=
  let t := trimSpace line
  if t == "" || strStarts t "#" then none
  else
    match splitFirstEq t with
    | none => none
    | some (k, v) =>
      let key := trimSpace k
      if key == "" then none
      else some (key, stripQuotes (trimSpace v))

/-- Model of `env.Parse` over the reader's lines; the returned Go map is an
association list written with overwrite-on-assign. -/
def Parse (lines : List String) : List (String × String) :=
  lines.foldl
    (fun acc l =>
      match parseLine l with
      | none => acc
      | some (k, v) => upsertAssoc acc k v) []

/-- Model of `env.isPortKey` (case-insensitive via `ToUpper`). -/
def envIsPortKey (key : String) : Bool :=
  let up := toUpperStr key
  up == "PORT" || strEndsWith up "_PORT"

/-- Model of `env.ExtractPortKeys`: parse, keep port-like keys, sort. -/
def ExtractPortKeys (lines : List String) : List String :=
  sortStrings (((Parse lines).map (fun kv => kv.1)).filter envIsPortKey)

example : Parse ["MONITORING_URL=\"http://localhost:31413/rpc\"", "app_port=3000"] =
    [("MONITORING_URL", "http://localhost:31413/rpc"), ("app_port", "3000")] := by decide
example : ExtractPortKeys ["PORT=8080", "API_PORT=9090", "app_port=3333",
    "OTHER_VAR=123", "# DB_PORT=5432"] = ["API_PORT", "PORT", "app_port"] := by decide

/-- Value stored under exact key `k` by the last line of `lines` that
parses to an assignment of `k` (the specification-level description used to
characterize `Parse`). -/
def lastParsedValue (lines : List String) (k : String) : Option String :=
  ((lines.filterMap parseLine).reverse.find? (fun kv => kv.1 == k)).map (fun kv => kv.2)

theorem lookupAssoc_upsertAssoc (acc : List (String × α)) (k : String) (v : α) (q : String) :
    lookupAssoc (upsertAssoc acc k v) q = if k == q then some v else lookupAssoc acc q := by
  induction acc with
  | nil => simp [upsertAssoc, lookupAssoc]
  | cons hd tl ih =>
    obtain ⟨k', v'⟩ := hd
    simp only [upsertAssoc]
    by_cases hkk : k' = k
    · subst hkk
      rw [if_pos (by simp)]
      by_cases hq : k' = q
      · subst hq; simp [lookupAssoc]
      · simp [lookupAssoc, hq]
    · rw [if_neg (by simpa using hkk)]
      by_cases hq : k' = q
      · subst hq
        have hkq : ¬ k = k' := fun h => hkk h.symm
        simp [lookupAssoc, hkq]
      · simp only [lookupAssoc]
        rw [if_neg (by simpa using hq), ih]
        by_cases hkq : k = q
        · simp [hkq]
        · simp [hkq, hq]

theorem find?_append_singleton (l : List (String × α)) (a : String × α) (k : String) :
    (l ++ [a]).find? (fun kv => kv.1 == k) =
      match l.find? (fun kv => kv.1 == k) with
      | some r => some r
      | none => if a.1 == k then some a else none := by
  induction l with
  | nil =>
    by_cases h : a.1 = k
    · simp [List.find?, h]
    · simp only [List.nil_append, List.find?, List.find?_nil]
      rw [show (a.1 == k) = false from by simpa using h]
      simp [h]
  | cons hd tl ih =>
    by_cases h : hd.1 = k
    · simp [List.find?, h]
    · simp only [List.cons_append, List.find?]
      rw [show (hd.1 == k) = false from by simpa using h]
      exact ih

theorem lookup_parse_foldl (l : List String) (k : String) :
    ∀ acc : List (String × String),
      lookupAssoc
        (l.foldl
          (fun acc s =>
            match parseLine s with
            | none => acc
            | some (k', v') => upsertAssoc acc k' v') acc) k =
        match (l.filterMap parseLine).reverse.find? (fun kv => kv.1 == k) with
        | some kv => some kv.2
        | none => lookupAssoc acc k := by
  induction l with
  | nil => intro acc; simp [List.filterMap]
  | cons hd tl ih =>
    intro acc
    simp only [List.foldl, List.filterMap]
    cases hp : parseLine hd with
    | none => simp only [hp]; exact ih acc
    | some kv =>
      obtain ⟨k', v'⟩ := kv
      simp only [hp, List.reverse_cons]
      rw [ih (upsertAssoc acc k' v')]
      rw [find?_append_singleton]
      cases hf : (List.filterMap parseLine tl).reverse.find? (fun kv => kv.1 == k) with
      | some r => simp
      | none =>
        simp only []
        rw [lookupAssoc_upsertAssoc]
        by_cases hk : k' == k
        · simp [hk]
        · simp [hk]

/-- C8 counterexample: on an input with two assignment lines for the same
key, `Parse` keeps the value of the second (last) occurrence, not the
first. -/
theorem parse_first_occurrence_counterexample :
    lookupAssoc (Parse ["A=1", "A=2"]) "A" = some "2" ∧
      lookupAssoc (Parse ["A=1", "A=2"]) "A" ≠ some "1" := by
  constructor
  · decide
  · decide

/-- C8 amended: when a dotenv-style input contains multiple assignment
lines for the same key, `Parse` keeps the value from the last occurrence of
that key (each later assignment overwrites the earlier one). -/
theorem parse_last_occurrence_wins (lines : List String) (k : String) :
    lookupAssoc (Parse lines) k = lastParsedValue lines k := by
  simp only [Parse, lastParsedValue]
  rw [lookup_parse_foldl lines k []]
  cases hf : (lines.filterMap parseLine).reverse.find? (fun kv => kv.1 == k) with
  | some r => simp
  | none => simp [lookupAssoc]

/-! ## internal/scanner/scanner.go -/

/-- Model of `Scanner.isIgnored`: the key starts with one of the ignore
prefixes. -/
def isIgnored (ignores : List String) (key : String) : Bool :=
  ignores.any (fun ig => strStarts key ig)

/-- Model of the scanner-side `isPortKey` (exact, case-sensitive). -/
def scanIsPortKey (key : String) : Bool :=
  key == "PORT" || strEndsWith key "_PORT"

/-- Key contributed by one `environ` entry in `Scanner.scanEnvironment`:
split at `=`, then drop ignored and non-port keys. -/
def scanEnvKeyOf (ignores : List String) (kv : String) : Option String :=
  match splitFirstEq kv with
  | none => none
  | some (k, _) => if isIgnored ignores k || !scanIsPortKey k then none else some k

/-- Model of `Scanner.scanEnvironment`, accumulating into the port-key
set. -/
def scanEnvironment (ignores : List String) (environ : List String)
    (out : List String) : List String :=
  environ.foldl
    (fun acc kv =>
      match scanEnvKeyOf ignores kv with
      | none => acc
      | some k => insertSet acc k) out

/-- Model of `Scanner.scanEnvFiles`: the filesystem walk is abstracted to
the list of discovered dotenv files, each given by its lines; every file
contributes its `ExtractPortKeys`, filtered as in the code. -/
def scanEnvFiles (ignores : List String) (files : List (List String))
    (out : List String) : List String :=
  files.foldl
    (fun acc lines =>
      (ExtractPortKeys lines).foldl
        (fun acc k =>
          if isIgnored ignores k || !scanIsPortKey k then acc else insertSet acc k) acc) out

/-- Model of `Scanner.Scan`: environment keys, then file keys, then the
synthesized default `"PORT"` when not ignored, sorted (context
cancellation is dropped in this pure model). -/
def Scan (ignores environ : List String) (files : List (List String)) : List String :=
  let m := scanEnvironment ignores environ []
  let m := scanEnvFiles ignores files m
  let m := if !isIgnored ignores "PORT" then insertSet m "PORT" else m
  sortStrings m

example : Scan ["DB_"] ["PORT=8080", "API_PORT=9090", "DB_PORT=5432",
    "OTHER_VAR=123", "INVALID_ENV_VAR"] [] = ["API_PORT", "PORT"] := by decide
example : Scan ["REDIS_"] [] [["WEB_PORT=3000", "REDIS_PORT=6379"]]
    = ["PORT", "WEB_PORT"] := by decide

/-! ## internal/app/app.go: selection policy -/

/-- Discovered key with its provenance (`scanner.Discovery`; only the key
takes part in selection). -/
structure Discovery where
  Key : String
  Source : String
deriving Repr, DecidableEq

/-- Per-key decision trail entry (`app.keyDecision`). -/
structure keyDecision where
  Key : String
  Source : String
  Included : Bool
  Reason : String
deriving Repr, DecidableEq

/-- Model of `app.isValidEnvVarName`: first char letter or underscore,
later chars letter, digit or underscore. -/
def isIdentStartChar (c : Char) : Bool :=
  ('A' ≤ c && c ≤ 'Z') || ('a' ≤ c && c ≤ 'z') || c == '_'

/-- Later characters of a valid env var name. -/
def isIdentChar (c : Char) : Bool :=
  isIdentStartChar c || ('0' ≤ c && c ≤ '9')

/-- Model of `app.isValidEnvVarName`. -/
def isValidEnvVarName (key : String) : Bool :=
  match key.data with
  | [] => false
  | c :: rest => isIdentStartChar c && rest.all isIdentChar

/-- One discovery step of `App.applySelection`: apply the exact-exclude
filter, then the include allow-list (non-empty restricts to listed keys),
record the decision, and add included keys to the key set. -/
def selectionStep (includes excludes : List String)
    (acc : List keyDecision × List String) (d : Discovery) :
    List keyDecision × List String :=
  let st1 := if excludes.contains d.Key then (false, "excluded by exact key")
             else (true, "discovered")
  let st2 :=
    if includes ≠ [] then
      if ¬ includes.contains d.Key then (false, "not in include_keys")
      else if st1.1 then (st1.1, "included by include_keys")
      else st1
    else st1
  (acc.1 ++ [⟨d.Key, d.Source, st2.1, st2.2⟩],
   if st2.1 then insertSet acc.2 d.Key else acc.2)

/-- Manual-key loop of `App.applySelection`: invalid names are a fatal
error, valid ones are always included. -/
def manualLoop : List String → List keyDecision × List String →
    Except String (List keyDecision × List String)
  | [], acc => Except.ok acc
  | key :: rest, (ds, ks) =>
    if ¬ isValidEnvVarName key then Except.error ("invalid env key " ++ key)
    else manualLoop rest (ds ++ [⟨key, "manual", true, "included by -k"⟩], insertSet ks key)

/-- Final ordering of the decision trail (`sort.Slice` comparator: key,
then source). -/
def decisionLe (d e : keyDecision) : Bool :=
  if d.Key == e.Key then leStr d.Source e.Source else leStr d.Key e.Key

/-- Model of `App.applySelection` (app.go lines 303-362): exclude and
include filters over the discoveries, then validated manual keys, then the
sorted final key list and decision trail. -/
def applySelection (discoveries : List Discovery) (manual : List String)
    (includes excludes : List String) :
    Except String (List keyDecision × List String) :=
  let start := discoveries.foldl (selectionStep includes excludes) ([], [])
  match manualLoop manual start with
  | Except.error e => Except.error e
  | Except.ok (ds, ks) => Except.ok (sortLe decisionLe ds, sortStrings ks)

/-- Scan-then-select pipeline, as composed by `App.Run` (the detailed
scanner feeds `applySelection`; the discovery source strings play no part
in selection). -/
def selectionPipeline (environ : List String) (files : List (List String))
    (ignores includes excludes manual : List String) : Except String (List String) :=
  match applySelection ((Scan ignores environ files).map (fun k => ⟨k, "scan"⟩))
      manual includes excludes with
  | Except.error e => Except.error e
  | Except.ok (_, finalKeys) => Except.ok finalKeys

/-! ## Membership lemmas for the scan and selection folds -/

theorem mem_insertSet (l : List String) (k x : String) :
    x ∈ insertSet l k ↔ x ∈ l ∨ x = k := by
  simp only [insertSet]
  by_cases h : l.contains k
  · have hk : k ∈ l := by simpa using h
    simp only [h, if_pos rfl]
    constructor
    · exact Or.inl
    · intro hx
      cases hx with
      | inl hx => exact hx
      | inr hx => rw [hx]; exact hk
  · rw [if_neg h]
    simp [List.mem_append]

theorem mem_insertLe (le : α → α → Bool) (a x : α) (l : List α) :
    x ∈ insertLe le a l ↔ x = a ∨ x ∈ l := by
  induction l with
  | nil => simp [insertLe]
  | cons y ys ih =>
    simp only [insertLe]
    by_cases h : le a y
    · simp [h]
    · simp only [h, if_neg]
      simp only [Bool.false_eq_true, if_false, List.mem_cons, ih]
      tauto

theorem mem_sortLe (le : α → α → Bool) (l : List α) (x : α) :
    x ∈ sortLe le l ↔ x ∈ l := by
  induction l with
  | nil => simp [sortLe]
  | cons y ys ih => simp [sortLe, mem_insertLe, ih]

theorem mem_scanEnvironment (ignores environ : List String) :
    ∀ (out : List String) (x : String),
      x ∈ scanEnvironment ignores environ out →
        x ∈ out ∨ isIgnored ignores x = false := by
  induction environ with
  | nil => intro out x hx; exact Or.inl hx
  | cons kv rest ih =>
    intro out x hx
    simp only [scanEnvironment, List.foldl] at hx
    cases hk : scanEnvKeyOf ignores kv with
    | none =>
      rw [hk] at hx
      exact ih out x hx
    | some k =>
      rw [hk] at hx
      rcases ih (insertSet out k) x hx with hmem | hfree
      · rcases (mem_insertSet out k x).mp hmem with hmem' | hxk
        · exact Or.inl hmem'
        · subst hxk
          right
          cases hsplit : splitFirstEq kv with
          | none =>
            simp only [scanEnvKeyOf, hsplit] at hk
            exact absurd hk (by simp)
          | some p =>
            obtain ⟨k1, v1⟩ := p
            simp only [scanEnvKeyOf, hsplit] at hk
            by_cases hg : isIgnored ignores k1 || !scanIsPortKey k1
            · rw [if_pos hg] at hk; exact absurd hk (by simp)
            · rw [if_neg hg] at hk
              have hpk : k1 = x := Option.some.inj hk
              rw [← hpk]
              exact (show isIgnored ignores k1 = false ∧ scanIsPortKey k1 = true by
                simpa using hg).1
      · exact Or.inr hfree

theorem mem_foldl_guarded_insert (g : String → Bool) (keys : List String) :
    ∀ (out : List String) (x : String),
      x ∈ keys.foldl (fun acc k => if g k then acc else insertSet acc k) out →
        x ∈ out ∨ g x = false := by
  induction keys with
  | nil => intro out x hx; exact Or.inl hx
  | cons k rest ih =>
    intro out x hx
    simp only [List.foldl] at hx
    by_cases hg : g k
    · rw [if_pos hg] at hx
      exact ih out x hx
    · rw [if_neg hg] at hx
      rcases ih (insertSet out k) x hx with hmem | hfail
      · rcases (mem_insertSet out k x).mp hmem with hmem' | hxk
        · exact Or.inl hmem'
        · subst hxk; right; simpa using hg
      · exact Or.inr hfail

theorem mem_scanEnvFiles (ignores : List String) (files : List (List String)) :
    ∀ (out : List String) (x : String),
      x ∈ scanEnvFiles ignores files out →
        x ∈ out ∨ isIgnored ignores x = false := by
  induction files with
  | nil => intro out x hx; exact Or.inl hx
  | cons lines rest ih =>
    intro out x hx
    simp only [scanEnvFiles, List.foldl] at hx
    rcases ih _ x hx with hmem | hfree
    · rcases mem_foldl_guarded_insert
          (fun k => isIgnored ignores k || !scanIsPortKey k)
          (ExtractPortKeys lines) out x hmem with hmem' | hfail
      · exact Or.inl hmem'
      · right; exact (Bool.or_eq_false_iff.mp hfail).1
    · exact Or.inr hfree

/-- Keys produced by `Scan` never match an ignore prefix. -/
theorem mem_Scan_not_ignored (ignores environ : List String)
    (files : List (List String)) (x : String)
    (hx : x ∈ Scan ignores environ files) : isIgnored ignores x = false := by
  simp only [Scan, sortStrings] at hx
  rw [mem_sortLe] at hx
  by_cases hport : isIgnored ignores "PORT"
  · rw [if_neg (by simpa using hport)] at hx
    rcases mem_scanEnvFiles ignores files _ x hx with hmem | hfree
    · rcases mem_scanEnvironment ignores environ [] x hmem with hmem' | hfree'
      · exact absurd hmem' (List.not_mem_nil x)
      · exact hfree'
    · exact hfree
  · rw [if_pos (by simpa using hport)] at hx
    rcases (mem_insertSet _ "PORT" x).mp hx with hmem | hxp
    · rcases mem_scanEnvFiles ignores files _ x hmem with hmem2 | hfree
      · rcases mem_scanEnvironment ignores environ [] x hmem2 with hmem' | hfree'
        · exact absurd hmem' (List.not_mem_nil x)
        · exact hfree'
      · exact hfree
    · subst hxp; simpa using hport

theorem mem_selection_keySet (includes excludes : List String)
    (discoveries : List Discovery) :
    ∀ (acc : List keyDecision × List String) (x : String),
      x ∈ (discoveries.foldl (selectionStep includes excludes) acc).2 →
        x ∈ acc.2 ∨ ∃ d ∈ discoveries, d.Key = x := by
  induction discoveries with
  | nil => intro acc x hx; exact Or.inl hx
  | cons d rest ih =>
    intro acc x hx
    simp only [List.foldl] at hx
    rcases ih _ x hx with hmem | hrest
    · simp only [selectionStep] at hmem
      by_cases hinc : (if includes ≠ [] then
          if ¬ includes.contains d.Key then (false, "not in include_keys")
          else if (if excludes.contains d.Key then (false, "excluded by exact key")
                   else (true, "discovered")).1 then
            ((if excludes.contains d.Key then (false, "excluded by exact key")
              else (true, "discovered")).1, "included by include_keys")
          else (if excludes.contains d.Key then (false, "excluded by exact key")
                else (true, "discovered"))
        else (if excludes.contains d.Key then (false, "excluded by exact key")
              else (true, "discovered"))).1
      · rw [if_pos hinc] at hmem
        rcases (mem_insertSet acc.2 d.Key x).mp hmem with hmem' | hxd
        · exact Or.inl hmem'
        · exact Or.inr ⟨d, List.mem_cons_self d rest, hxd.symm⟩
      · rw [if_neg hinc] at hmem
        exact Or.inl hmem
    · rcases hrest with ⟨d', hd', hk⟩
      exact Or.inr ⟨d', List.mem_cons_of_mem d hd', hk⟩

theorem manualLoop_ok_mem (manual : List String) :
    ∀ (acc : List keyDecision × List String) (ds : List keyDecision)
      (ks : List String) (x : String),
      manualLoop manual acc = Except.ok (ds, ks) → x ∈ ks →
        x ∈ acc.2 ∨ x ∈ manual := by
  induction manual with
  | nil =>
    intro acc ds ks x hok hx
    simp only [manualLoop] at hok
    have : acc = (ds, ks) := Except.ok.inj hok
    rw [this]
    exact Or.inl hx
  | cons key rest ih =>
    intro acc ds ks x hok hx
    obtain ⟨ads, aks⟩ := acc
    simp only [manualLoop] at hok
    by_cases hvalid : isValidEnvVarName key
    · rw [if_neg (by simpa using hvalid)] at hok
      rcases ih _ ds ks x hok hx with hmem | hrest
      · rcases (mem_insertSet aks key x).mp hmem with hmem' | hxk
        · exact Or.inl hmem'
        · exact Or.inr (by rw [hxk]; exact List.mem_cons_self key rest)
      · exact Or.inr (List.mem_cons_of_mem key hrest)
    · rw [if_pos (by simpa using hvalid)] at hok
      exact absurd hok (by simp)

/-- C3 counterexample: with ignore prefix `"DB_"` and non-empty include
allow-list `["DB_PORT"]`, the key `"DB_PORT"` matches an ignore prefix and
appears in the include list, yet the pipeline's final key list is empty:
the include allow-list does not override the ignore-prefix filter. -/
theorem include_overrides_ignore_counterexample :
    isIgnored ["DB_"] "DB_PORT" = true ∧
      "DB_PORT" ∈ ["DB_PORT"] ∧ (["DB_PORT"] : List String) ≠ [] ∧
      selectionPipeline ["DB_PORT=5432"] [] ["DB_"] ["DB_PORT"] [] [] =
        Except.ok [] := by
  refine ⟨by decide, by decide, by decide, by rfl⟩

/-- C3 amended: a key matching a configured ignore prefix is filtered out
during the scan and, unless it is separately supplied as a manual key,
never appears in the pipeline's final key list — even when it is listed in
a non-empty exact include allow-list (which only restricts among
discovered keys). -/
theorem ignored_key_never_selected (environ : List String)
    (files : List (List String)) (ignores includes excludes manual : List String)
    (k : String) (hign : isIgnored ignores k = true) (hman : k ∉ manual)
    (finalKeys : List String)
    (hrun : selectionPipeline environ files ignores includes excludes manual =
      Except.ok finalKeys) :
    k ∉ Scan ignores environ files ∧ k ∉ finalKeys := by
  have hscan : k ∉ Scan ignores environ files := by
    intro hmem
    rw [mem_Scan_not_ignored ignores environ files k hmem] at hign
    exact absurd hign (by simp)
  refine ⟨hscan, ?_⟩
  intro hmem
  simp only [selectionPipeline, applySelection] at hrun
  cases hml : manualLoop manual
      (((Scan ignores environ files).map (fun k => ⟨k, "scan"⟩)).foldl
        (selectionStep includes excludes) ([], [])) with
  | error e => rw [hml] at hrun; exact absurd hrun (by simp)
  | ok pair =>
    obtain ⟨ds, ks⟩ := pair
    rw [hml] at hrun
    have hfk : finalKeys = sortStrings ks := (Except.ok.inj hrun).symm
    rw [hfk] at hmem
    simp only [sortStrings] at hmem
    rw [mem_sortLe] at hmem
    rcases manualLoop_ok_mem manual _ ds ks k hml hmem with hks | hmanual
    · rcases mem_selection_keySet includes excludes _ _ k hks with hnil | hdisc
      · exact absurd hnil (List.not_mem_nil k)
      · rcases hdisc with ⟨d, hd, hk⟩
        rcases List.mem_map.mp hd with ⟨key, hkey, hdkey⟩
        have : d.Key = key := by rw [← hdkey]
        rw [this] at hk
        rw [hk] at hkey
        exact hscan hkey
    · exact hman hmanual

/-- Witness for the amended C3 at the counterexample's concrete input. -/
theorem ignored_key_never_selected_witness :
    "DB_PORT" ∉ Scan ["DB_"] ["DB_PORT=5432"] [] ∧
      "DB_PORT" ∉ ([] : List String) :=
  ignored_key_never_selected ["DB_PORT=5432"] [] ["DB_"] ["DB_PORT"] [] []
    "DB_PORT" (by decide) (by decide) [] (by rfl)

/-! ## internal/app/linking.go: merged source snapshot -/

/-- Model of `normalizeEnvKey`: trim, then upper-case. -/
def normalizeEnvKey (key : String) : String := toUpperStr (trimSpace key)

/-- Merged current-project snapshot (`sourceValues`): actual-key map and
normalized-key index, both Go maps modelled as association lists. -/
structure sourceValues where
  byActual : List (String × String)
  byNorm : List (String × String)

/-- Model of `sourceValues.add`: the first value recorded for a normalized
key is kept; later entries with the same normalized key are dropped. -/
def sourceValues.add (s : sourceValues) (key value : String) : sourceValues :=
  let norm := normalizeEnvKey key
  if (lookupAssoc s.byNorm norm).isSome then s
  else { byNorm := upsertAssoc s.byNorm norm key,
         byActual := upsertAssoc s.byActual key value }

/-- Model of `sourceValues.lookup`: resolve the normalized key to the
recorded actual key, then to its value. -/
def sourceValues.lookup (s : sourceValues) (key : String) : Option (String × String) :=
  match lookupAssoc s.byNorm (normalizeEnvKey key) with
  | none => none
  | some actual =>
    match lookupAssoc s.byActual actual with
    | none => none
    | some value => some (actual, value)

/-- Environment entries as key-value pairs (the `SplitN(kv, "=", 2)` loop
of `collectSourceValues`; entries without `=` are skipped). -/
def envPairs (environ : List String) : List (String × String) :=
  environ.filterMap splitFirstEq

/-- Model of `App.collectSourceValues`: process-environment entries are
added first, then the entries parsed from the walked dotenv files (the
filesystem walk is abstracted to the flat list `fileEntries` of parsed
entries in walk order; read-failure warnings cannot arise in this pure
model, so the warning list is empty). -/
def collectSourceValues (environ : List String)
    (fileEntries : List (String × String)) : sourceValues × List String :=
  let afterEnv := (envPairs environ).foldl (fun s kv => s.add kv.1 kv.2) ⟨[], []⟩
  (fileEntries.foldl (fun s kv => s.add kv.1 kv.2) afterEnv, [])

/-- Invariant of the snapshot: the normalized-key index only maps a
normalized key to an actual key normalizing to it. -/
def normKeyed (s : sourceValues) : Prop :=
  ∀ n a, lookupAssoc s.byNorm n = some a → normalizeEnvKey a = n

theorem normKeyed_add (s : sourceValues) (key value : String)
    (h : normKeyed s) : normKeyed (s.add key value) := by
  simp only [sourceValues.add]
  by_cases hg : (lookupAssoc s.byNorm (normalizeEnvKey key)).isSome
  · rw [if_pos hg]; exact h
  · rw [if_neg hg]
    intro n a ha
    simp only at ha
    rw [lookupAssoc_upsertAssoc] at ha
    by_cases hn : normalizeEnvKey key = n
    · rw [if_pos (by simpa using hn)] at ha
      have : key = a := Option.some.inj ha
      rw [← this, hn]
    · rw [if_neg (by simpa using hn)] at ha
      exact h n a ha

theorem lookup_add_preserved (s : sourceValues) (key value q k v : String)
    (hinv : normKeyed s) (hq : s.lookup q = some (k, v)) :
    (s.add key value).lookup q = some (k, v) := by
  simp only [sourceValues.add]
  by_cases hg : (lookupAssoc s.byNorm (normalizeEnvKey key)).isSome
  · rw [if_pos hg]; exact hq
  · rw [if_neg hg]
    cases hA : lookupAssoc s.byNorm (normalizeEnvKey q) with
    | none => simp only [sourceValues.lookup, hA] at hq; exact absurd hq (by simp)
    | some actual =>
      simp only [sourceValues.lookup, hA] at hq
      cases hB : lookupAssoc s.byActual actual with
      | none => simp only [hB] at hq; exact absurd hq (by simp)
      | some value' =>
        simp only [hB] at hq
        have hne : ¬ normalizeEnvKey key = normalizeEnvKey q := by
          intro he
          rw [he, hA] at hg
          exact hg (by simp)
        have hactual : normalizeEnvKey actual = normalizeEnvKey q := hinv _ _ hA
        have hka : ¬ key = actual := by
          intro he
          rw [he, hactual] at hne
          exact hne rfl
        have eq1 : lookupAssoc
            (upsertAssoc s.byNorm (normalizeEnvKey key) key) (normalizeEnvKey q) =
            some actual := by
          rw [lookupAssoc_upsertAssoc, if_neg (by simpa using hne)]
          exact hA
        have eq2 : lookupAssoc (upsertAssoc s.byActual key value) actual = some value' := by
          rw [lookupAssoc_upsertAssoc, if_neg (by simpa using hka)]
          exact hB
        simp only [sourceValues.lookup, eq1, eq2]
        exact hq

theorem foldl_add_inv (l : List (String × String)) :
    ∀ s : sourceValues, normKeyed s →
      normKeyed (l.foldl (fun s kv => sourceValues.add s kv.1 kv.2) s) := by
  induction l with
  | nil => intro s hs; exact hs
  | cons kv rest ih =>
    intro s hs
    exact ih _ (normKeyed_add s kv.1 kv.2 hs)

theorem foldl_add_preserved (l : List (String × String)) (q k v : String) :
    ∀ s : sourceValues, normKeyed s → s.lookup q = some (k, v) →
      (l.foldl (fun s kv => sourceValues.add s kv.1 kv.2) s).lookup q = some (k, v) := by
  induction l with
  | nil => intro s _ hq; exact hq
  | cons kv rest ih =>
    intro s hs hq
    exact ih _ (normKeyed_add s kv.1 kv.2 hs)
      (lookup_add_preserved s kv.1 kv.2 q k v hs hq)

theorem foldl_add_establishes (q k v : String) (l : List (String × String)) :
    ∀ s : sourceValues, normKeyed s →
      lookupAssoc s.byNorm (normalizeEnvKey q) = none →
      l.find? (fun kv => normalizeEnvKey kv.1 == normalizeEnvKey q) = some (k, v) →
      (l.foldl (fun s kv => sourceValues.add s kv.1 kv.2) s).lookup q = some (k, v) := by
  induction l with
  | nil => intro s _ _ hfind; exact absurd hfind (by simp)
  | cons kv rest ih =>
    intro s hs habsent hfind
    obtain ⟨k0, v0⟩ := kv
    simp only [List.find?] at hfind
    by_cases hmatch : normalizeEnvKey k0 = normalizeEnvKey q
    · have hpred : (normalizeEnvKey k0 == normalizeEnvKey q) = true := by simpa using hmatch
      simp only [hpred] at hfind
      have hkv : (k0, v0) = (k, v) := Option.some.inj hfind
      have hk0 : k0 = k := congrArg Prod.fst hkv
      have hv0 : v0 = v := congrArg Prod.snd hkv
      subst hk0; subst hv0
      simp only [List.foldl]
      have hadd : (s.add k0 v0).lookup q = some (k0, v0) := by
        simp only [sourceValues.add]
        rw [if_neg (by rw [hmatch, habsent]; simp)]
        have eq1 : lookupAssoc
            (upsertAssoc s.byNorm (normalizeEnvKey k0) k0) (normalizeEnvKey q) =
            some k0 := by
          rw [lookupAssoc_upsertAssoc, if_pos (by simpa using hmatch)]
        have eq2 : lookupAssoc (upsertAssoc s.byActual k0 v0) k0 = some v0 := by
          rw [lookupAssoc_upsertAssoc, if_pos (by simp)]
        simp only [sourceValues.lookup, eq1, eq2]
      exact foldl_add_preserved rest q k0 v0 _ (normKeyed_add s k0 v0 hs) hadd
    · have hpred : (normalizeEnvKey k0 == normalizeEnvKey q) = false := by simpa using hmatch
      simp only [hpred] at hfind
      simp only [List.foldl]
      apply ih _ (normKeyed_add s k0 v0 hs) _ hfind
      simp only [sourceValues.add]
      by_cases hg : (lookupAssoc s.byNorm (normalizeEnvKey k0)).isSome
      · rw [if_pos hg]; exact habsent
      · rw [if_neg hg]
        show lookupAssoc (upsertAssoc s.byNorm (normalizeEnvKey k0) k0)
          (normalizeEnvKey q) = none
        rw [lookupAssoc_upsertAssoc, if_neg (by simpa using hmatch)]
        exact habsent

/-- C10: whenever the same normalized key occurs both in the process
environment and in a scanned dotenv file, the merged snapshot holds the
process-environment value: environment entries are recorded before any
file entry and the first recorded value for a normalized key is never
replaced. -/
theorem env_value_wins_over_file_values (environ : List String)
    (fileEntries : List (String × String)) (q k v : String)
    (hfind : (envPairs environ).find?
      (fun kv => normalizeEnvKey kv.1 == normalizeEnvKey q) = some (k, v)) :
    ((collectSourceValues environ fileEntries).1).lookup q = some (k, v) := by
  simp only [collectSourceValues]
  have hinit : normKeyed ⟨[], []⟩ := by intro n a ha; exact absurd ha (by simp [lookupAssoc])
  have henv := foldl_add_establishes q k v (envPairs environ) ⟨[], []⟩ hinit
    (by simp [lookupAssoc]) hfind
  exact foldl_add_preserved fileEntries q k v _
    (foldl_add_inv (envPairs environ) ⟨[], []⟩ hinit) henv

/-- Witness for C10: `PORT=1` from the environment beats a file entry
`port=2` with the same normalized key. -/
theorem env_value_wins_over_file_values_witness :
    ((collectSourceValues ["PORT=1"] [("port", "2")]).1).lookup "port" =
      some ("PORT", "1") :=
  env_value_wins_over_file_values ["PORT=1"] [("port", "2")] "port" "PORT" "1" (by decide)

/-! ## internal/lockfile/lockfile.go -/

/-- One key-value pair of a lockfile (`lockfile.Assignment`). -/
structure Assignment where
  Key : String
  Value : String
deriving Repr, DecidableEq

/-- Lockfile contents (`lockfile.LockFile`). -/
structure LockFile where
  Version : Int
  CWDFingerprint : String
  Range : String
  Assignments : List Assignment
  CreatedAt : String
deriving Repr, DecidableEq

/-- FNV-1a 32-bit hash over a string (Go `hash/fnv` `New32a`), at ASCII
precision, where UTF-8 bytes coincide with code points. -/
def fnv1a32 (s : String) : Nat :=
  s.data.foldl (fun h c => ((h ^^^ c.toNat) * 16777619) % 4294967296) 2166136261

/-- Model of `port.HashPath`.  The `filepath.Abs` canonicalization is
environment-dependent and is modelled as the identity: the embedding works
with already-canonical path strings. -/
def HashPath (path : String) : Nat := fnv1a32 path

/-- Lowercase hex digit. -/
def hexDigit (n : Nat) : Char :=
  if n < 10 then Char.ofNat (48 + n) else Char.ofNat (87 + n)

/-- Zero-padded 8-digit lowercase hex rendering (Go format `%08x` for a
32-bit value). -/
def toHex8 (n : Nat) : String :=
  String.mk ((List.range 8).map (fun i => hexDigit (n / 16 ^ (7 - i) % 16)))

/-- Model of `lockfile.Fingerprint`: fixed-width hex of the path hash. -/
def Fingerprint (cwd : String) : String := toHex8 (HashPath cwd)

/-- Model of `lockfile.ToMap` (later duplicates overwrite earlier ones, as
for a Go map). -/
def ToMap (assignments : List Assignment) : List (String × String) :=
  assignments.foldl (fun m a => upsertAssoc m a.Key a.Value) []

example : Fingerprint "/a" ≠ Fingerprint "/b" := by decide

/-! ## internal/app/linking.go: target-port resolution -/

/-- Link-rewrite candidate (`app.rewriteCandidate`). -/
structure rewriteCandidate where
  SourceKey : String
  TargetRepo : String
  TargetPortKey : String
  TargetNamespace : String
  SameBranch : Bool
  SourceDesc : String
deriving Repr, DecidableEq

/-- Outcome of `lockfile.Read` on a target repository, distinguishing the
`os.ErrNotExist` case the code treats silently. -/
inductive LockRead where
  | found (lf : LockFile)
  | absent
  | failed (msg : String)
deriving Repr, DecidableEq

/-- Scan of `chooseAssignment` over the assignment list for one wanted
key, matched case-insensitively; returns the recorded key and value. -/
def findAssign : List Assignment → String → Option (String × String)
  | [], _ => none
  | a :: rest, key =>
    if eqFold a.Key key then some (a.Key, a.Value) else findAssign rest key

/-- Model of `chooseAssignment` (linking.go lines 245-262): the requested
key when given, else `"APP_PORT"` then `"PORT"`. -/
def chooseAssignment (assignments : List Assignment) (requested : String) :
    Option (String × String) :=
  if requested ≠ "" then findAssign assignments requested
  else
    match findAssign assignments "APP_PORT" with
    | some r => some r
    | none => findAssign assignments "PORT"

/-- Scan of `chooseTargetKey` over the key list, returning the key and its
index. -/
def findKeyIdx : List String → String → Nat → Option (String × Nat)
  | [], _, _ => none
  | key :: rest, want, idx =>
    if eqFold key want then some (key, idx) else findKeyIdx rest want (idx + 1)

/-- Model of `chooseTargetKey` (linking.go lines 226-243): the requested
key when given, else `"APP_PORT"` then `"PORT"`, each matched
case-insensitively against the discovered keys, with its index. -/
def chooseTargetKey (keys : List String) (requested : String) :
    Option (String × Nat) :=
  if requested ≠ "" then findKeyIdx keys requested 0
  else
    match findKeyIdx keys "APP_PORT" 0 with
    | some r => some r
    | none => findKeyIdx keys "PORT" 0

/-- Model of `preferredPort` (linking.go lines 203-210): the pure §4.2
formula with no availability probing. -/
def preferredPort (seed : Nat) (r : Range) (index : Int) : Except String Int :=
  if r.Size ≤ 0 then Except.error ("invalid range size: " ++ toString r.Size)
  else Except.ok (r.Start + Int.tmod ((seed : Int) + index) r.Size)

/-- Modelled from the spec: `port.SeedFor` is missing from src/ (only its
callers are present); per spec §4.1 it is the stable FNV-1a 32-bit hash
over the canonical project path concatenated with the namespace.  The
exact concatenation separator is a modelling choice; every claim treats
the seed as an opaque deterministic function of (path, namespace). -/
def SeedFor (path ns : String) : Nat := fnv1a32 (path ++ "|" ++ ns)

/-- Modelled from the spec: `appendBranchNamespace` is missing from src/;
per spec §4.1 branch-aware seeding folds the branch name into the
namespace.  The combining syntax is a modelling choice; claims treat it
opaquely. -/
def appendBranchNamespace (ns branch : String) : String :=
  if ns == "" then branch else ns ++ "@" ++ branch

/-- Model of `App.computeSeedForRepo` (linking.go lines 190-201): the
branch resolver is a pure function parameter; a resolution failure falls
back to the non-branch seed with a warning and the function has no error
outcome at all. -/
def computeSeedForRepo (repoDir ns : String) (seedBranch : Bool)
    (resolveBranch : String → Except String String) : Nat × List String :=
  if !seedBranch then (SeedFor repoDir ns, [])
  else
    match resolveBranch repoDir with
    | Except.error e =>
      (SeedFor repoDir ns,
       ["seed-branch enabled but branch resolution failed for " ++ repoDir ++ ": " ++ e
          ++ "; falling back to non-branch seed"])
    | Except.ok branch =>
      (SeedFor repoDir (appendBranchNamespace ns branch), [])

/-- Model of `discoverPortKeys` (linking.go lines 212-224): the scanner run
against the target repository is abstracted to its raw key outcome; the
code then sorts the keys. -/
def discoverPortKeys (scanResult : Except String (List String)) :
    Except String (List String) :=
  match scanResult with
  | Except.error e => Except.error e
  | Except.ok keys => Except.ok (sortStrings keys)

/-- Fallback range used by `resolveTargetPort` (linking.go lines 149-152):
the target lockfile's recorded range when present and parseable, else the
current run's range. -/
def fallbackRangeOf (defaultRange : Range) (lockRead : LockRead) : Range :=
  match lockRead with
  | LockRead.found lf =>
    match ParseRange lf.Range with
    | Except.ok r => r
    | Except.error _ => defaultRange
  | _ => defaultRange

/-- Deterministic tail of `resolveTargetPort` (linking.go lines 169-187):
discover and sort the target's keys, choose the target key, compute the
target seed and apply the `preferredPort` formula; `warnings` carries the
lockfile-phase warnings accumulated so far. -/
def resolveDeterministic (fallbackRange : Range) (candidate : rewriteCandidate)
    (targetRepo : String) (scanResult : Except String (List String))
    (seedBranch : Bool) (resolveBranch : String → Except String String)
    (warnings : List String) :
    List String × Except String (Int × String × String) :=
  match discoverPortKeys scanResult with
  | Except.error e => (warnings, Except.error e)
  | Except.ok keys =>
    match chooseTargetKey keys candidate.TargetPortKey with
    | none =>
      if candidate.TargetPortKey ≠ "" then
        (warnings, Except.error ("target key " ++ candidate.TargetPortKey
          ++ " was not discovered in " ++ targetRepo))
      else
        (warnings, Except.error ("neither APP_PORT nor PORT was discovered in "
          ++ targetRepo))
    | some (targetKey, targetIndex) =>
      let seedRes := computeSeedForRepo targetRepo candidate.TargetNamespace
        seedBranch resolveBranch
      match preferredPort seedRes.1 fallbackRange (targetIndex : Int) with
      | Except.error e => (warnings ++ seedRes.2, Except.error e)
      | Except.ok p =>
        (warnings ++ seedRes.2, Except.ok (p, targetKey, "deterministic"))

/-- Model of `App.resolveTargetPort` (linking.go lines 145-188): prefer a
numeric assignment from the target's lockfile (portSource "lockfile"),
else fall back to the deterministic computation (portSource
"deterministic") over the lockfile-recorded range when parseable.  The
first component collects warnings, the second is the (port, key,
portSource) result or the fatal error for this candidate. -/
def resolveTargetPort (defaultRange : Range) (candidate : rewriteCandidate)
    (targetRepo : String) (lockRead : LockRead)
    (scanResult : Except String (List String)) (seedBranch : Bool)
    (resolveBranch : String → Except String String) :
    List String × Except String (Int × String × String) :=
  let fallbackRange := fallbackRangeOf defaultRange lockRead
  match lockRead with
  | LockRead.found lf =>
    match chooseAssignment lf.Assignments candidate.TargetPortKey with
    | some (key, value) =>
      match Atoi value with
      | some p => ([], Except.ok (p, key, "lockfile"))
      | none =>
        resolveDeterministic fallbackRange candidate targetRepo scanResult
          seedBranch resolveBranch
          ["target lockfile contains non-numeric value for " ++ key]
    | none =>
      if candidate.TargetPortKey ≠ "" then
        resolveDeterministic fallbackRange candidate targetRepo scanResult
          seedBranch resolveBranch
          ["target lockfile missing key " ++ candidate.TargetPortKey
            ++ "; falling back to deterministic lookup"]
      else
        resolveDeterministic fallbackRange candidate targetRepo scanResult
          seedBranch resolveBranch
          ["target lockfile missing APP_PORT/PORT; falling back to deterministic lookup"]
  | LockRead.absent =>
    resolveDeterministic fallbackRange candidate targetRepo scanResult
      seedBranch resolveBranch []
  | LockRead.failed e =>
    resolveDeterministic fallbackRange candidate targetRepo scanResult
      seedBranch resolveBranch
      ["target lockfile read failed: " ++ e ++ "; falling back to deterministic lookup"]

/-- C7: when branch-aware seeding is requested and branch resolution for
the repository fails, `computeSeedForRepo` falls back to the non-branch
seed (hash of path plus namespace only) and emits a warning; its result
type `Nat × List String` has no error outcome at all, so the case is never
fatal. -/
theorem seedBranch_failure_falls_back (repoDir ns : String)
    (resolveBranch : String → Except String String) (e : String)
    (hfail : resolveBranch repoDir = Except.error e) :
    computeSeedForRepo repoDir ns true resolveBranch =
      (SeedFor repoDir ns,
       ["seed-branch enabled but branch resolution failed for " ++ repoDir ++ ": "
          ++ e ++ "; falling back to non-branch seed"]) := by
  simp only [computeSeedForRepo, hfail, Bool.not_true, Bool.false_eq_true, if_false]

/-- Witness for C7 at a concrete failing resolver. -/
theorem seedBranch_failure_falls_back_witness :
    computeSeedForRepo "/r" "" true (fun _ => Except.error "boom") =
      (SeedFor "/r" "",
       ["seed-branch enabled but branch resolution failed for " ++ "/r" ++ ": "
          ++ "boom" ++ "; falling back to non-branch seed"]) :=
  seedBranch_failure_falls_back "/r" "" (fun _ => Except.error "boom") "boom" rfl

/-- The target lockfile read yields no usable numeric assignment for the
requested key (or the APP_PORT/PORT fallback): it is absent, unreadable,
misses the key, or holds a non-numeric value. -/
def lockfileNoNumeric (lockRead : LockRead) (requested : String) : Prop :=
  match lockRead with
  | LockRead.found lf =>
    chooseAssignment lf.Assignments requested = none ∨
      ∃ key value, chooseAssignment lf.Assignments requested = some (key, value) ∧
        Atoi value = none
  | _ => True

theorem resolveDeterministic_snd (fallbackRange : Range) (candidate : rewriteCandidate)
    (targetRepo : String) (scanResult : Except String (List String))
    (seedBranch : Bool) (resolveBranch : String → Except String String)
    (w : List String) (rawKeys : List String) (key : String) (idx : Nat)
    (hscan : scanResult = Except.ok rawKeys)
    (hchoose : chooseTargetKey (sortStrings rawKeys) candidate.TargetPortKey =
      some (key, idx))
    (hsize : 0 < fallbackRange.Size) :
    (resolveDeterministic fallbackRange candidate targetRepo scanResult
        seedBranch resolveBranch w).2 =
      Except.ok (fallbackRange.Start +
        Int.tmod (((computeSeedForRepo targetRepo candidate.TargetNamespace
            seedBranch resolveBranch).1 : Int) + (idx : Int)) fallbackRange.Size,
        key, "deterministic") := by
  simp only [resolveDeterministic, hscan, discoverPortKeys, hchoose, preferredPort]
  rw [if_neg (by omega)]

/-- Shared shape of the deterministic fallback of `resolveTargetPort`:
whenever the lockfile phase yields no numeric assignment, the result is
the `preferredPort` formula over the fallback range at the sorted-key
index of the chosen key. -/
theorem resolveTargetPort_snd_deterministic (defaultRange : Range)
    (candidate : rewriteCandidate) (targetRepo : String) (lockRead : LockRead)
    (scanResult : Except String (List String)) (seedBranch : Bool)
    (resolveBranch : String → Except String String)
    (rawKeys : List String) (key : String) (idx : Nat)
    (hno : lockfileNoNumeric lockRead candidate.TargetPortKey)
    (hscan : scanResult = Except.ok rawKeys)
    (hchoose : chooseTargetKey (sortStrings rawKeys) candidate.TargetPortKey =
      some (key, idx))
    (hsize : 0 < (fallbackRangeOf defaultRange lockRead).Size) :
    (resolveTargetPort defaultRange candidate targetRepo lockRead scanResult
        seedBranch resolveBranch).2 =
      Except.ok ((fallbackRangeOf defaultRange lockRead).Start +
        Int.tmod (((computeSeedForRepo targetRepo candidate.TargetNamespace
            seedBranch resolveBranch).1 : Int) + (idx : Int))
          (fallbackRangeOf defaultRange lockRead).Size,
        key, "deterministic") := by
  cases lockRead with
  | found lf =>
    simp only [lockfileNoNumeric] at hno
    rcases hno with hnone | ⟨key0, value0, hsome, hatoi⟩
    · simp only [resolveTargetPort, hnone]
      by_cases hreq : candidate.TargetPortKey ≠ ""
      · rw [if_pos hreq]
        exact resolveDeterministic_snd _ candidate targetRepo scanResult seedBranch
          resolveBranch _ rawKeys key idx hscan hchoose hsize
      · rw [if_neg hreq]
        exact resolveDeterministic_snd _ candidate targetRepo scanResult seedBranch
          resolveBranch _ rawKeys key idx hscan hchoose hsize
    · simp only [resolveTargetPort, hsome, hatoi]
      exact resolveDeterministic_snd _ candidate targetRepo scanResult seedBranch
        resolveBranch _ rawKeys key idx hscan hchoose hsize
  | absent =>
    simp only [resolveTargetPort]
    exact resolveDeterministic_snd _ candidate targetRepo scanResult seedBranch
      resolveBranch _ rawKeys key idx hscan hchoose hsize
  | failed e =>
    simp only [resolveTargetPort]
    exact resolveDeterministic_snd _ candidate targetRepo scanResult seedBranch
      resolveBranch _ rawKeys key idx hscan hchoose hsize

/-- C2: the link resolver's target port prefers a numeric lockfile
assignment for the requested key (or APP_PORT then PORT, matched
case-insensitively) with portSource "lockfile"; otherwise it is computed
as `range.Start + (targetSeed + sortedKeyIndex) mod range.Size` over the
target's discovered sorted key list with portSource "deterministic" — the
definitions involved contain no availability check at all. -/
theorem resolveTargetPort_lockfile_then_deterministic (defaultRange : Range)
    (candidate : rewriteCandidate) (targetRepo : String) (lockRead : LockRead)
    (scanResult : Except String (List String)) (seedBranch : Bool)
    (resolveBranch : String → Except String String) :
    (∀ lf key value p, lockRead = LockRead.found lf →
       chooseAssignment lf.Assignments candidate.TargetPortKey = some (key, value) →
       Atoi value = some p →
       (resolveTargetPort defaultRange candidate targetRepo lockRead scanResult
           seedBranch resolveBranch).2 = Except.ok (p, key, "lockfile")) ∧
    (∀ rawKeys key idx, lockfileNoNumeric lockRead candidate.TargetPortKey →
       scanResult = Except.ok rawKeys →
       chooseTargetKey (sortStrings rawKeys) candidate.TargetPortKey = some (key, idx) →
       0 < (fallbackRangeOf defaultRange lockRead).Size →
       (resolveTargetPort defaultRange candidate targetRepo lockRead scanResult
           seedBranch resolveBranch).2 =
         Except.ok ((fallbackRangeOf defaultRange lockRead).Start +
           Int.tmod (((computeSeedForRepo targetRepo candidate.TargetNamespace
               seedBranch resolveBranch).1 : Int) + (idx : Int))
             (fallbackRangeOf defaultRange lockRead).Size,
           key, "deterministic")) := by
  constructor
  · intro lf key value p hlock hchoose hatoi
    subst hlock
    simp only [resolveTargetPort, hchoose, hatoi]
  · intro rawKeys key idx hno hscan hchoose hsize
    exact resolveTargetPort_snd_deterministic defaultRange candidate targetRepo
      lockRead scanResult seedBranch resolveBranch rawKeys key idx hno hscan
      hchoose hsize

/-- Witness for C2: a lockfile assignment `app_port=18080` is preferred
case-insensitively for requested key APP_PORT (spec scenario), and with no
lockfile the deterministic formula over the default range is used. -/
theorem resolveTargetPort_lockfile_then_deterministic_witness :
    (resolveTargetPort ⟨12000, 12010⟩ ⟨"MONITORING_URL", "/t", "APP_PORT", "", false, "d"⟩
        "/t" (LockRead.found ⟨1, "f", "10000-20000", [⟨"app_port", "18080"⟩], "now"⟩)
        (Except.ok []) false (fun _ => Except.error "no git")).2 =
      Except.ok (18080, "app_port", "lockfile") ∧
    (resolveTargetPort ⟨12000, 12010⟩ ⟨"MONITORING_URL", "/t", "", "", false, "d"⟩
        "/t" LockRead.absent (Except.ok ["APP_PORT"]) false
        (fun _ => Except.error "no git")).2 =
      Except.ok ((12000 : Int) +
        Int.tmod (((computeSeedForRepo "/t" "" false (fun _ => Except.error "no git")).1 : Int)
          + ((0 : Nat) : Int)) 11,
        "APP_PORT", "deterministic") := by
  constructor
  · exact (resolveTargetPort_lockfile_then_deterministic ⟨12000, 12010⟩
      ⟨"MONITORING_URL", "/t", "APP_PORT", "", false, "d"⟩ "/t"
      (LockRead.found ⟨1, "f", "10000-20000", [⟨"app_port", "18080"⟩], "now"⟩)
      (Except.ok []) false (fun _ => Except.error "no git")).1
      ⟨1, "f", "10000-20000", [⟨"app_port", "18080"⟩], "now"⟩
      "app_port" "18080" 18080 rfl (by decide) (by decide)
  · exact (resolveTargetPort_lockfile_then_deterministic ⟨12000, 12010⟩
      ⟨"MONITORING_URL", "/t", "", "", false, "d"⟩ "/t" LockRead.absent
      (Except.ok ["APP_PORT"]) false (fun _ => Except.error "no git")).2
      ["APP_PORT"] "APP_PORT" 0 trivial rfl (by decide) (by decide)

/-- C9: when the target lockfile exists and records a parseable range, the
deterministic fallback of `resolveTargetPort` computes the port over that
recorded range; the current run's range is used only when the lockfile is
absent (or unreadable) or its recorded range is unparseable. -/
theorem deterministic_fallback_range_choice (defaultRange : Range)
    (candidate : rewriteCandidate) (targetRepo : String) (lockRead : LockRead)
    (scanResult : Except String (List String)) (seedBranch : Bool)
    (resolveBranch : String → Except String String) :
    (∀ lf r', lockRead = LockRead.found lf → ParseRange lf.Range = Except.ok r' →
       fallbackRangeOf defaultRange lockRead = r') ∧
    (∀ lf e, lockRead = LockRead.found lf → ParseRange lf.Range = Except.error e →
       fallbackRangeOf defaultRange lockRead = defaultRange) ∧
    ((lockRead = LockRead.absent ∨ ∃ m, lockRead = LockRead.failed m) →
       fallbackRangeOf defaultRange lockRead = defaultRange) ∧
    (∀ rawKeys key idx, lockfileNoNumeric lockRead candidate.TargetPortKey →
       scanResult = Except.ok rawKeys →
       chooseTargetKey (sortStrings rawKeys) candidate.TargetPortKey = some (key, idx) →
       0 < (fallbackRangeOf defaultRange lockRead).Size →
       (resolveTargetPort defaultRange candidate targetRepo lockRead scanResult
           seedBranch resolveBranch).2 =
         Except.ok ((fallbackRangeOf defaultRange lockRead).Start +
           Int.tmod (((computeSeedForRepo targetRepo candidate.TargetNamespace
               seedBranch resolveBranch).1 : Int) + (idx : Int))
             (fallbackRangeOf defaultRange lockRead).Size,
           key, "deterministic")) := by
  refine ⟨?_, ?_, ?_, ?_⟩
  · intro lf r' hlock hparse
    subst hlock
    simp only [fallbackRangeOf, hparse]
  · intro lf e hlock hparse
    subst hlock
    simp only [fallbackRangeOf, hparse]
  · intro h
    rcases h with h | ⟨m, h⟩ <;> subst h <;> simp only [fallbackRangeOf]
  · intro rawKeys key idx hno hscan hchoose hsize
    exact resolveTargetPort_snd_deterministic defaultRange candidate targetRepo
      lockRead scanResult seedBranch resolveBranch rawKeys key idx hno hscan
      hchoose hsize

/-- Witness for C9: a lockfile recording range 15000-15010 redirects the
deterministic fallback to that range even though the requested key is
missing from its assignments. -/
theorem deterministic_fallback_range_choice_witness :
    fallbackRangeOf ⟨12000, 12010⟩
        (LockRead.found ⟨1, "f", "15000-15010", [], "now"⟩) = ⟨15000, 15010⟩ ∧
      (resolveTargetPort ⟨12000, 12010⟩ ⟨"MONITORING_URL", "/t", "", "", false, "d"⟩
          "/t" (LockRead.found ⟨1, "f", "15000-15010", [], "now"⟩)
          (Except.ok ["APP_PORT"]) false (fun _ => Except.error "no git")).2 =
        Except.ok ((fallbackRangeOf ⟨12000, 12010⟩
            (LockRead.found ⟨1, "f", "15000-15010", [], "now"⟩)).Start +
          Int.tmod (((computeSeedForRepo "/t" "" false
              (fun _ => Except.error "no git")).1 : Int) + ((0 : Nat) : Int))
            (fallbackRangeOf ⟨12000, 12010⟩
              (LockRead.found ⟨1, "f", "15000-15010", [], "now"⟩)).Size,
          "APP_PORT", "deterministic") := by
  constructor
  · exact (deterministic_fallback_range_choice ⟨12000, 12010⟩
      ⟨"MONITORING_URL", "/t", "", "", false, "d"⟩ "/t"
      (LockRead.found ⟨1, "f", "15000-15010", [], "now"⟩) (Except.ok ["APP_PORT"])
      false (fun _ => Except.error "no git")).1
      ⟨1, "f", "15000-15010", [], "now"⟩ ⟨15000, 15010⟩ rfl (by rfl)
  · exact (deterministic_fallback_range_choice ⟨12000, 12010⟩
      ⟨"MONITORING_URL", "/t", "", "", false, "d"⟩ "/t"
      (LockRead.found ⟨1, "f", "15000-15010", [], "now"⟩) (Except.ok ["APP_PORT"])
      false (fun _ => Except.error "no git")).2.2.2
      ["APP_PORT"] "APP_PORT" 0 (Or.inl (by decide)) rfl (by decide) (by decide)

/-! ## internal/app/app.go: assignment with optional lockfile -/

/-- Relevant fields of `app.Options` (the embedding carries only the
fields the embedded functions read; `Branch` and `SeedBranch` are read by
linking.go). -/
structure Options where
  Range : String
  CWD : String
  UseLock : Bool
  Branch : String
  SeedBranch : Bool
deriving Repr, DecidableEq

/-- Assignment record (`app.assignedPort`). -/
structure assignedPort where
  Key : String
  Value : String
  Preferred : Int
  Assigned : Int
  Probes : Nat
  FromLock : Bool
deriving Repr, DecidableEq

/-- Model of `strconv.Itoa`. -/
def Itoa (n : Int) : String := toString n

/-- Warning emitted when the lockfile's recorded range differs from the
explicitly requested one. -/
def rangeDiffersMsg (lfRange optsRange : String) : String :=
  "lockfile range " ++ lfRange ++ " differs from CLI range " ++ optsRange

/-- Scan loop of `PortForWithStats`, tracking the probe count. -/
def portForStatsLoop (isFree : Int → Bool) (start size base : Int) :
    Nat → Int → Nat → Option (Int × Nat)
  | 0, _, _ => none
  | Nat.succ fuel, i, probes =>
    let p := start + Int.tmod (base + i) size
    if isFree p then some (p, probes)
    else portForStatsLoop isFree start size base fuel (i + 1) (probes + 1)

/-- Modelled from the spec: `Allocator.PortForWithStats` is missing from
src/ (only `PortFor` and its callers are present); per spec §4.2 it is the
probe-aware variant of the same circular scan, returning (assigned,
preferred, probes) with the probe count incremented per skipped slot. -/
def Allocator.PortForWithStats (a : Allocator) (index : Int) :
    Except String (Int × Int × Nat) :=
  let size := a.Rng.Size
  if size ≤ 0 then Except.error ("invalid range size: " ++ toString size)
  else
    let base := (a.Seed : Int) + index
    match portForStatsLoop a.IsFree a.Rng.Start size base size.toNat 0 0 with
    | some (p, probes) => Except.ok (p, a.Rng.Start + Int.tmod base size, probes)
    | none => Except.error (noFreePortsMsg a.Rng)

/-- Per-key loop of `App.assignWithOptionalLock`: a locked key takes its
(numeric) lockfile value with probe count 0; other keys go through the
allocator; any failure aborts the whole assignment. -/
def assignLoop (a : Allocator) (locked : List (String × String)) :
    List String → Nat → Except String (List assignedPort × List (String × String))
  | [], _ => Except.ok ([], [])
  | key :: rest, i =>
    match lookupAssoc locked key with
    | some val =>
      match Atoi val with
      | none => Except.error ("lockfile value for " ++ key ++ " is not numeric")
      | some p =>
        match assignLoop a locked rest (i + 1) with
        | Except.error e => Except.error e
        | Except.ok (results, overrides) =>
          Except.ok (⟨key, val, p, p, 0, true⟩ :: results, upsertAssoc overrides key val)
    | none =>
      match a.PortForWithStats (i : Int) with
      | Except.error e => Except.error ("find port for " ++ key ++ ": " ++ e)
      | Except.ok (assigned, preferred, probes) =>
        match assignLoop a locked rest (i + 1) with
        | Except.error e => Except.error e
        | Except.ok (results, overrides) =>
          Except.ok (⟨key, Itoa assigned, preferred, assigned, probes, false⟩ :: results,
            upsertAssoc overrides key (Itoa assigned))

/-- Model of `App.assignWithOptionalLock` (app.go lines 364-405): under
use-lock, read the lockfile (fatal on failure), require the fingerprint to
match (fatal on mismatch), warn when the recorded range differs from a
non-empty requested range, and let lockfile assignments win per key. -/
def assignWithOptionalLock (isFree : Int → Bool) (opts : Options) (r : Range)
    (seed : Nat) (keys : List String) (lockRead : Except String LockFile) :
    Except String (List assignedPort × List (String × String) × List String) :=
  let allocator : Allocator := ⟨seed, r, isFree⟩
  if opts.UseLock then
    match lockRead with
    | Except.error e => Except.error ("read lockfile: " ++ e)
    | Except.ok lf =>
      if lf.CWDFingerprint ≠ Fingerprint opts.CWD then
        Except.error "lockfile cwd fingerprint mismatch"
      else
        let warnings :=
          if lf.Range ≠ opts.Range ∧ opts.Range ≠ "" then
            [rangeDiffersMsg lf.Range opts.Range]
          else []
        match assignLoop allocator (ToMap lf.Assignments) keys 0 with
        | Except.error e => Except.error e
        | Except.ok (results, overrides) => Except.ok (results, overrides, warnings)
  else
    match assignLoop allocator [] keys 0 with
    | Except.error e => Except.error e
    | Except.ok (results, overrides) => Except.ok (results, overrides, [])

theorem assignLoop_locked_mem (a : Allocator) (locked : List (String × String)) :
    ∀ (keys : List String) (i : Nat) (results : List assignedPort)
      (overrides : List (String × String)),
      assignLoop a locked keys i = Except.ok (results, overrides) →
      ∀ k v, k ∈ keys → lookupAssoc locked k = some v →
        lookupAssoc overrides k = some v ∧
        ∃ p, Atoi v = some p ∧ (⟨k, v, p, p, 0, true⟩ : assignedPort) ∈ results := by
  intro keys
  induction keys with
  | nil => intro i results overrides _ k v hk _; exact absurd hk (List.not_mem_nil k)
  | cons key rest ih =>
    intro i results overrides hok k v hk hlocked
    simp only [assignLoop] at hok
    cases hl : lookupAssoc locked key with
    | some val =>
      simp only [hl] at hok
      cases hatoi : Atoi val with
      | none => simp only [hatoi] at hok; exact absurd hok (by simp)
      | some p =>
        simp only [hatoi] at hok
        cases hrest : assignLoop a locked rest (i + 1) with
        | error e => simp only [hrest] at hok; exact absurd hok (by simp)
        | ok pair =>
          obtain ⟨res', ov'⟩ := pair
          simp only [hrest] at hok
          have hpair : (⟨key, val, p, p, 0, true⟩ :: res',
              upsertAssoc ov' key val) = (results, overrides) := by
            simpa using hok
          have hres : results = ⟨key, val, p, p, 0, true⟩ :: res' :=
            (congrArg Prod.fst hpair).symm
          have hov : overrides = upsertAssoc ov' key val :=
            (congrArg Prod.snd hpair).symm
          by_cases hkey : k = key
          · subst hkey
            have hvval : v = val := by
              rw [hl] at hlocked
              exact (Option.some.inj hlocked).symm
            subst hvval
            refine ⟨?_, p, hatoi, ?_⟩
            · rw [hov, lookupAssoc_upsertAssoc, if_pos (by simp)]
            · rw [hres]; exact List.mem_cons_self _ _
          · have hkrest : k ∈ rest := by
              rcases List.mem_cons.mp hk with h | h
              · exact absurd h hkey
              · exact h
            obtain ⟨hlook, p', hatoi', hmem⟩ := ih (i + 1) res' ov' hrest k v hkrest hlocked
            refine ⟨?_, p', hatoi', ?_⟩
            · rw [hov, lookupAssoc_upsertAssoc, if_neg (by simpa using fun h => hkey h.symm)]
              exact hlook
            · rw [hres]; exact List.mem_cons_of_mem _ hmem
    | none =>
      simp only [hl] at hok
      cases hpf : a.PortForWithStats (i : Int) with
      | error e => simp only [hpf] at hok; exact absurd hok (by simp)
      | ok triple =>
        obtain ⟨assigned, preferred, probes⟩ := triple
        simp only [hpf] at hok
        cases hrest : assignLoop a locked rest (i + 1) with
        | error e => simp only [hrest] at hok; exact absurd hok (by simp)
        | ok pair =>
          obtain ⟨res', ov'⟩ := pair
          simp only [hrest] at hok
          have hpair : (⟨key, Itoa assigned, preferred, assigned, probes, false⟩ :: res',
              upsertAssoc ov' key (Itoa assigned)) = (results, overrides) := by
            simpa using hok
          have hres : results =
              ⟨key, Itoa assigned, preferred, assigned, probes, false⟩ :: res' :=
            (congrArg Prod.fst hpair).symm
          have hov : overrides = upsertAssoc ov' key (Itoa assigned) :=
            (congrArg Prod.snd hpair).symm
          have hkey : ¬ k = key := by
            intro he
            rw [he, hl] at hlocked
            exact absurd hlocked (by simp)
          have hkrest : k ∈ rest := by
            rcases List.mem_cons.mp hk with h | h
            · exact absurd h hkey
            · exact h
          obtain ⟨hlook, p', hatoi', hmem⟩ := ih (i + 1) res' ov' hrest k v hkrest hlocked
          refine ⟨?_, p', hatoi', ?_⟩
          · rw [hov, lookupAssoc_upsertAssoc, if_neg (by simpa using fun h => hkey h.symm)]
            exact hlook
          · rw [hres]; exact List.mem_cons_of_mem _ hmem

/-- C5: under use-lock, a fingerprint mismatch between the lockfile and
the current project directory is a fatal error (no assignments are
produced), while a recorded range differing from a non-empty explicitly
requested range only adds a warning and the lockfile's (numeric)
assignments are still used for their keys, marked FromLock with probe
count 0. -/
theorem useLock_fingerprint_fatal_range_warns (isFree : Int → Bool)
    (opts : Options) (r : Range) (seed : Nat) (keys : List String)
    (lf : LockFile) (huse : opts.UseLock = true) :
    (lf.CWDFingerprint ≠ Fingerprint opts.CWD →
       ∃ e, assignWithOptionalLock isFree opts r seed keys (Except.ok lf) =
         Except.error e) ∧
    (∀ results overrides warnings,
       lf.CWDFingerprint = Fingerprint opts.CWD →
       lf.Range ≠ opts.Range → opts.Range ≠ "" →
       assignWithOptionalLock isFree opts r seed keys (Except.ok lf) =
         Except.ok (results, overrides, warnings) →
       rangeDiffersMsg lf.Range opts.Range ∈ warnings ∧
       ∀ k v, k ∈ keys → lookupAssoc (ToMap lf.Assignments) k = some v →
         lookupAssoc overrides k = some v ∧
         ∃ p, Atoi v = some p ∧ (⟨k, v, p, p, 0, true⟩ : assignedPort) ∈ results) := by
  constructor
  · intro hmis
    refine ⟨"lockfile cwd fingerprint mismatch", ?_⟩
    simp only [assignWithOptionalLock, huse, if_pos rfl]
    rw [if_pos trivial, if_pos hmis]
  · intro results overrides warnings hfp hrange hreq hok
    simp only [assignWithOptionalLock, huse, if_pos rfl] at hok
    rw [if_pos trivial] at hok
    rw [if_neg (show ¬ lf.CWDFingerprint ≠ Fingerprint opts.CWD from fun h => h hfp)] at hok
    rw [if_pos (show lf.Range ≠ opts.Range ∧ opts.Range ≠ "" from ⟨hrange, hreq⟩)] at hok
    cases hloop : assignLoop ⟨seed, r, isFree⟩ (ToMap lf.Assignments) keys 0 with
    | error e =>
      simp only [hloop] at hok
      exact absurd hok (by simp)
    | ok pair =>
      obtain ⟨res0, ov0⟩ := pair
      simp only [hloop] at hok
      have htriple : (res0, ov0, [rangeDiffersMsg lf.Range opts.Range]) =
          (results, overrides, warnings) := by simpa using hok
      have hres : results = res0 := (congrArg (fun t => t.1) htriple).symm
      have hov : overrides = ov0 := (congrArg (fun t => t.2.1) htriple).symm
      have hw : warnings = [rangeDiffersMsg lf.Range opts.Range] :=
        (congrArg (fun t => t.2.2) htriple).symm
      constructor
      · rw [hw]; exact List.mem_singleton.mpr rfl
      · intro k v hk hlocked
        rw [hres, hov]
        exact assignLoop_locked_mem ⟨seed, r, isFree⟩ (ToMap lf.Assignments)
          keys 0 res0 ov0 hloop k v hk hlocked

/-- Witness for C5: a matching fingerprint with a differing recorded range
produces the range warning and keeps the lockfile's value 18080 for
WEB_PORT, while the unlocked API_PORT is allocated; and flipping the
fingerprint makes the call fatal. -/
theorem useLock_fingerprint_fatal_range_warns_witness :
    (rangeDiffersMsg "10000-20000" "12000-12010" ∈
        [rangeDiffersMsg "10000-20000" "12000-12010"] ∧
      lookupAssoc [("WEB_PORT", "18080"), ("API_PORT", "12005")] "WEB_PORT" =
        some "18080" ∧
      ∃ p, Atoi "18080" = some p ∧
        (⟨"WEB_PORT", "18080", p, p, 0, true⟩ : assignedPort) ∈
          [⟨"API_PORT", "12005", 12005, 12005, 0, false⟩,
           ⟨"WEB_PORT", "18080", 18080, 18080, 0, true⟩]) ∧
    (∃ e, assignWithOptionalLock (fun _ => true)
        ⟨"12000-12010", "/a", true, "", false⟩ ⟨12000, 12010⟩ 5
        ["API_PORT", "WEB_PORT"]
        (Except.ok ⟨1, Fingerprint "/b", "10000-20000",
          [⟨"WEB_PORT", "18080"⟩], "now"⟩) = Except.error e) := by
  constructor
  · have h := (useLock_fingerprint_fatal_range_warns (fun _ => true)
      ⟨"12000-12010", "/a", true, "", false⟩ ⟨12000, 12010⟩ 5
      ["API_PORT", "WEB_PORT"]
      ⟨1, Fingerprint "/a", "10000-20000", [⟨"WEB_PORT", "18080"⟩], "now"⟩ rfl).2
      [⟨"API_PORT", "12005", 12005, 12005, 0, false⟩,
       ⟨"WEB_PORT", "18080", 18080, 18080, 0, true⟩]
      [("WEB_PORT", "18080"), ("API_PORT", "12005")]
      [rangeDiffersMsg "10000-20000" "12000-12010"]
      rfl (by decide) (by decide) (by rfl)
    exact ⟨h.1, h.2 "WEB_PORT" "18080" (by decide) (by rfl)⟩
  · exact (useLock_fingerprint_fatal_range_warns (fun _ => true)
      ⟨"12000-12010", "/a", true, "", false⟩ ⟨12000, 12010⟩ 5
      ["API_PORT", "WEB_PORT"]
      ⟨1, Fingerprint "/b", "10000-20000", [⟨"WEB_PORT", "18080"⟩], "now"⟩ rfl).1
      (by decide)

/-! ## internal/linkspec/spec.go and candidate building -/

/-- Interpretation mode of one target-env directive (`linkspec.Mode`). -/
inductive Mode where
  | smart
  | explicit
deriving Repr, DecidableEq

/-- One parsed target-env directive (`linkspec.TargetEnvSpec`). -/
structure TargetEnvSpec where
  Raw : String
  Mode : Mode
  SourceKey : String
  EnvPath : String
  TargetPortKey : String
deriving Repr, DecidableEq

/-- Model of `config.LinkRule` (the v2 config package): source key,
target repo path, optional target port key and namespace, and the
optional same-branch requirement (`SameBranch *bool` becomes
`Option Bool`; the nil default of true is applied in
`configCandidates`). -/
structure LinkRule where
  SourceKey : String
  TargetRepo : String
  TargetPortKey : String
  TargetNamespace : String
  SameBranch : Option Bool
deriving Repr, DecidableEq

/-- Minimal URL view used by the loopback helpers (`net/url` is external;
its parse and render are function parameters built on this record). -/
structure URL where
  Hostname : String
  Port : String
deriving Repr, DecidableEq

/-- Model of `parseLoopbackURL` (linking.go lines 457-475) over an
abstract `net/url` parser: loopback host and an explicit numeric port. -/
def parseLoopbackURL (urlParse : String → Except String URL) (raw : String) :
    Except String (URL × Int) :=
  match urlParse raw with
  | Except.error e => Except.error e
  | Except.ok u =>
    if u.Hostname ≠ "localhost" ∧ u.Hostname ≠ "127.0.0.1" then
      Except.error ("host " ++ u.Hostname ++ " is not loopback")
    else if u.Port == "" then Except.error "missing port"
    else
      match Atoi u.Port with
      | none => Except.error ("invalid port " ++ u.Port)
      | some p => Except.ok (u, p)

/-- Model of `replaceLoopbackURLPort` (linking.go lines 477-485): re-parse,
then render with the substituted port (the render function stands for
`JoinHostPort` plus `URL.String`, which cannot fail). -/
def replaceLoopbackURLPort (urlParse : String → Except String URL)
    (render : URL → Int → String) (raw : String) (p : Int) : Except String String :=
  match parseLoopbackURL urlParse raw with
  | Except.error e => Except.error e
  | Except.ok (u, _) => Except.ok (render u p)

/-- Model of linking.go's `isPortLikeKey` (case-insensitive). -/
def isPortLikeKey (key : String) : Bool :=
  let up := toUpperStr key
  up == "PORT" || strEndsWith up "_PORT"

/-- Model of `inferSmartCandidates` (linking.go lines 323-374): match the
numeric port of each local loopback URL value against the port-like
entries of the target dotenv file; ambiguous matches warn and skip. -/
def inferSmartCandidates (absPath : String → Except String String)
    (readFileLines : String → Except String (List String)) (dirOf : String → String)
    (urlParse : String → Except String URL) (spec : TargetEnvSpec)
    (src : sourceValues) : List rewriteCandidate × List String :=
  match absPath spec.EnvPath with
  | Except.error e =>
    ([], ["target-env smart (" ++ spec.Raw ++ "): resolve path failed: " ++ e])
  | Except.ok targetPath =>
    match readFileLines targetPath with
    | Except.error e =>
      ([], ["target-env smart (" ++ spec.Raw ++ "): open failed: " ++ e])
    | Except.ok lines =>
      let targetValues := Parse lines
      let portToTargetKeys := targetValues.foldl
        (fun m kv =>
          if !isPortLikeKey kv.1 then m
          else
            match Atoi kv.2 with
            | none => m
            | some _ =>
              match lookupAssoc m kv.2 with
              | none => upsertAssoc m kv.2 [kv.1]
              | some ks => upsertAssoc m kv.2 (ks ++ [kv.1])) []
      let out := src.byActual.foldl
        (fun (acc : List rewriteCandidate × List String) kv =>
          match parseLoopbackURL urlParse kv.2 with
          | Except.error _ => acc
          | Except.ok pu =>
            match lookupAssoc portToTargetKeys (Itoa pu.2) with
            | none => acc
            | some [] => acc
            | some [tk] =>
              (acc.1 ++ [⟨kv.1, dirOf targetPath, tk, "", true,
                "target-env smart (" ++ spec.Raw ++ ")"⟩], acc.2)
            | some (_ :: _ :: _) =>
              (acc.1, acc.2 ++ ["target-env smart (" ++ spec.Raw ++ "): source "
                ++ kv.1 ++ " matched multiple target keys"])) ([], [])
      if out.1 == [] then
        (out.1, out.2 ++ ["target-env smart (" ++ spec.Raw
          ++ "): no matching localhost URL keys found"])
      else out

/-- Explicit phase of `App.buildRewriteCandidates` (linking.go lines
268-284): one candidate per resolvable explicit directive, in order. -/
def explicitCandidates (absPath : String → Except String String)
    (dirOf : String → String) (specs : List TargetEnvSpec) :
    List rewriteCandidate × List String :=
  specs.foldl
    (fun acc spec =>
      if spec.Mode ≠ Mode.explicit then acc
      else
        match absPath spec.EnvPath with
        | Except.error e =>
          (acc.1, acc.2 ++ ["target-env " ++ spec.Raw ++ " cannot be resolved: " ++ e])
        | Except.ok targetPath =>
          (acc.1 ++ [⟨spec.SourceKey, dirOf targetPath, spec.TargetPortKey, "", true,
            "target-env explicit (" ++ spec.Raw ++ ")"⟩], acc.2)) ([], [])

/-- Config phase of `App.buildRewriteCandidates` (linking.go lines
286-299): every configured link rule, same-branch defaulting to true. -/
def configCandidates (links : List LinkRule) : List rewriteCandidate :=
  links.enum.map
    (fun il =>
      ⟨il.2.SourceKey, il.2.TargetRepo, il.2.TargetPortKey, il.2.TargetNamespace,
        il.2.SameBranch.getD true, "config link[" ++ toString il.1 ++ "]"⟩)

/-- Smart phase of `App.buildRewriteCandidates` (linking.go lines
301-308). -/
def smartCandidates (absPath : String → Except String String)
    (readFileLines : String → Except String (List String)) (dirOf : String → String)
    (urlParse : String → Except String URL) (specs : List TargetEnvSpec)
    (src : sourceValues) : List rewriteCandidate × List String :=
  specs.foldl
    (fun acc spec =>
      if spec.Mode ≠ Mode.smart then acc
      else
        let r := inferSmartCandidates absPath readFileLines dirOf urlParse spec src
        (acc.1 ++ r.1, acc.2 ++ r.2)) ([], [])

/-- De-duplication loop of `App.buildRewriteCandidates` (linking.go lines
310-319): first-seen per normalized source key. -/
def dedupeGo : List rewriteCandidate → List String → List rewriteCandidate
  | [], _ => []
  | c :: rest, seen =>
    let n := normalizeEnvKey c.SourceKey
    if seen.contains n then dedupeGo rest seen
    else c :: dedupeGo rest (n :: seen)

/-- First-seen de-duplication by normalized source key. -/
def dedupeByNormKey (all : List rewriteCandidate) : List rewriteCandidate :=
  dedupeGo all []

/-- Model of `App.buildRewriteCandidates` (linking.go lines 264-321):
explicit directives, then config link rules, then smart directives,
de-duplicated first-seen by normalized source key. -/
def buildRewriteCandidates (absPath : String → Except String String)
    (readFileLines : String → Except String (List String)) (dirOf : String → String)
    (urlParse : String → Except String URL) (specs : List TargetEnvSpec)
    (configLinks : List LinkRule) (src : sourceValues) :
    List rewriteCandidate × List String :=
  let e := explicitCandidates absPath dirOf specs
  let cfg := configCandidates configLinks
  let sm := smartCandidates absPath readFileLines dirOf urlParse specs src
  (dedupeByNormKey (e.1 ++ cfg ++ sm.1), e.2 ++ sm.2)

theorem filter_dedupeGo (n : String) :
    ∀ (all : List rewriteCandidate) (seen : List String),
      (dedupeGo all seen).filter (fun c => normalizeEnvKey c.SourceKey == n) =
        if seen.contains n then []
        else (all.filter (fun c => normalizeEnvKey c.SourceKey == n)).take 1 := by
  intro all
  induction all with
  | nil =>
    intro seen
    by_cases h : seen.contains n
    · simp [dedupeGo, h]
    · simp [dedupeGo, h]
  | cons c rest ih =>
    intro seen
    simp only [dedupeGo]
    by_cases hseen : seen.contains (normalizeEnvKey c.SourceKey)
    · rw [if_pos hseen, ih seen]
      by_cases hn : normalizeEnvKey c.SourceKey = n
      · have hcn : seen.contains n = true := by rw [← hn]; exact hseen
        rw [if_pos hcn, if_pos hcn]
      · have hfc : (c :: rest).filter (fun c => normalizeEnvKey c.SourceKey == n) =
            rest.filter (fun c => normalizeEnvKey c.SourceKey == n) := by
          simp only [List.filter_cons]
          rw [if_neg (by simpa using hn)]
        rw [hfc]
    · rw [if_neg hseen]
      by_cases hn : normalizeEnvKey c.SourceKey = n
      · have hsn : seen.contains n = false := by
          rw [← hn]; simpa using hseen
        have hcontains : (normalizeEnvKey c.SourceKey :: seen).contains n = true := by
          simp [List.contains_cons, hn]
        have e1 : (c :: dedupeGo rest (normalizeEnvKey c.SourceKey :: seen)).filter
            (fun c => normalizeEnvKey c.SourceKey == n) =
            c :: (dedupeGo rest (normalizeEnvKey c.SourceKey :: seen)).filter
              (fun c => normalizeEnvKey c.SourceKey == n) := by
          simp only [List.filter_cons]
          rw [if_pos (show (normalizeEnvKey c.SourceKey == n) = true by simpa using hn)]
        have e2 : (c :: rest).filter (fun c => normalizeEnvKey c.SourceKey == n) =
            c :: rest.filter (fun c => normalizeEnvKey c.SourceKey == n) := by
          simp only [List.filter_cons]
          rw [if_pos (show (normalizeEnvKey c.SourceKey == n) = true by simpa using hn)]
        rw [e1, ih (normalizeEnvKey c.SourceKey :: seen), if_pos hcontains]
        rw [if_neg (show ¬ seen.contains n = true by simpa using hsn), e2]
        simp
      · have hcc : (normalizeEnvKey c.SourceKey :: seen).contains n = seen.contains n := by
          simp only [List.contains_cons]
          rw [show (n == normalizeEnvKey c.SourceKey) = false from by
            simpa using fun h => hn h.symm]
          simp
        have e1 : (c :: dedupeGo rest (normalizeEnvKey c.SourceKey :: seen)).filter
            (fun c => normalizeEnvKey c.SourceKey == n) =
            (dedupeGo rest (normalizeEnvKey c.SourceKey :: seen)).filter
              (fun c => normalizeEnvKey c.SourceKey == n) := by
          simp only [List.filter_cons]
          rw [if_neg (show ¬ (normalizeEnvKey c.SourceKey == n) = true by simpa using hn)]
        have e2 : (c :: rest).filter (fun c => normalizeEnvKey c.SourceKey == n) =
            rest.filter (fun c => normalizeEnvKey c.SourceKey == n) := by
          simp only [List.filter_cons]
          rw [if_neg (show ¬ (normalizeEnvKey c.SourceKey == n) = true by simpa using hn)]
        rw [e1, ih (normalizeEnvKey c.SourceKey :: seen), hcc, e2]

/-- C6: merged link-rewrite candidates are de-duplicated by normalized
(case-insensitive) source key with first-seen precedence in the fixed
order explicit target-env directives, then configured link rules, then
smart directives; in particular, when an explicit directive and a config
link rule share a normalized source key, only the explicit directive's
candidate survives into the output. -/
theorem explicit_beats_config_link (absPath : String → Except String String)
    (readFileLines : String → Except String (List String)) (dirOf : String → String)
    (urlParse : String → Except String URL) (specs : List TargetEnvSpec)
    (configLinks : List LinkRule) (src : sourceValues) (n : String) :
    ((buildRewriteCandidates absPath readFileLines dirOf urlParse specs configLinks
        src).1.filter (fun c => normalizeEnvKey c.SourceKey == n) =
      (((explicitCandidates absPath dirOf specs).1 ++ configCandidates configLinks ++
        (smartCandidates absPath readFileLines dirOf urlParse specs src).1).filter
          (fun c => normalizeEnvKey c.SourceKey == n)).take 1) ∧
    (∀ c, c ∈ (explicitCandidates absPath dirOf specs).1 →
      normalizeEnvKey c.SourceKey = n →
      (buildRewriteCandidates absPath readFileLines dirOf urlParse specs configLinks
          src).1.filter (fun c => normalizeEnvKey c.SourceKey == n) =
        ((explicitCandidates absPath dirOf specs).1.filter
          (fun c => normalizeEnvKey c.SourceKey == n)).take 1 ∧
      ∀ c', c' ∈ (buildRewriteCandidates absPath readFileLines dirOf urlParse specs
          configLinks src).1 → normalizeEnvKey c'.SourceKey = n →
        c' ∈ (explicitCandidates absPath dirOf specs).1) := by
  have hmain : (buildRewriteCandidates absPath readFileLines dirOf urlParse specs
      configLinks src).1.filter (fun c => normalizeEnvKey c.SourceKey == n) =
      (((explicitCandidates absPath dirOf specs).1 ++ configCandidates configLinks ++
        (smartCandidates absPath readFileLines dirOf urlParse specs src).1).filter
          (fun c => normalizeEnvKey c.SourceKey == n)).take 1 := by
    simp only [buildRewriteCandidates, dedupeByNormKey]
    rw [filter_dedupeGo n _ []]
    simp
  refine ⟨hmain, ?_⟩
  intro c hc hcn
  have hcfilter : c ∈ (explicitCandidates absPath dirOf specs).1.filter
      (fun c => normalizeEnvKey c.SourceKey == n) :=
    List.mem_filter.mpr ⟨hc, by simpa using hcn⟩
  obtain ⟨x, xs, hxs⟩ : ∃ x xs, (explicitCandidates absPath dirOf specs).1.filter
      (fun c => normalizeEnvKey c.SourceKey == n) = x :: xs := by
    cases hf : (explicitCandidates absPath dirOf specs).1.filter
        (fun c => normalizeEnvKey c.SourceKey == n) with
    | nil => rw [hf] at hcfilter; exact absurd hcfilter (List.not_mem_nil c)
    | cons x xs => exact ⟨x, xs, rfl⟩
  have hexp : (buildRewriteCandidates absPath readFileLines dirOf urlParse specs
      configLinks src).1.filter (fun c => normalizeEnvKey c.SourceKey == n) =
      ((explicitCandidates absPath dirOf specs).1.filter
        (fun c => normalizeEnvKey c.SourceKey == n)).take 1 := by
    rw [hmain, List.append_assoc, List.filter_append, hxs]
    simp
  refine ⟨hexp, ?_⟩
  intro c' hc' hcn'
  have hc'filter : c' ∈ (buildRewriteCandidates absPath readFileLines dirOf urlParse
      specs configLinks src).1.filter (fun c => normalizeEnvKey c.SourceKey == n) :=
    List.mem_filter.mpr ⟨hc', by simpa using hcn'⟩
  rw [hexp] at hc'filter
  have := List.take_subset 1 _ hc'filter
  exact (List.mem_filter.mp this).1

/-- Witness for C6: an explicit directive for MONITORING_URL and a config
rule for monitoring_url share the normalized key; the merged candidate
list keeps only the explicit directive's candidate. -/
theorem explicit_beats_config_link_witness :
    ((buildRewriteCandidates (fun p => Except.ok p) (fun _ => Except.error "x")
        (fun _ => "/t") (fun _ => Except.error "x")
        [⟨"MONITORING_URL=../t/.env", Mode.explicit, "MONITORING_URL", "../t/.env", ""⟩]
        [⟨"monitoring_url", "/cfg", "", "", none⟩] ⟨[], []⟩).1.filter
          (fun c => normalizeEnvKey c.SourceKey == "MONITORING_URL") =
      ((explicitCandidates (fun p => Except.ok p) (fun _ => "/t")
        [⟨"MONITORING_URL=../t/.env", Mode.explicit, "MONITORING_URL", "../t/.env", ""⟩]).1.filter
          (fun c => normalizeEnvKey c.SourceKey == "MONITORING_URL")).take 1) ∧
    (∀ c', c' ∈ (buildRewriteCandidates (fun p => Except.ok p) (fun _ => Except.error "x")
        (fun _ => "/t") (fun _ => Except.error "x")
        [⟨"MONITORING_URL=../t/.env", Mode.explicit, "MONITORING_URL", "../t/.env", ""⟩]
        [⟨"monitoring_url", "/cfg", "", "", none⟩] ⟨[], []⟩).1 →
      normalizeEnvKey c'.SourceKey = "MONITORING_URL" →
      c' ∈ (explicitCandidates (fun p => Except.ok p) (fun _ => "/t")
        [⟨"MONITORING_URL=../t/.env", Mode.explicit, "MONITORING_URL", "../t/.env", ""⟩]).1) :=
  (explicit_beats_config_link (fun p => Except.ok p) (fun _ => Except.error "x")
    (fun _ => "/t") (fun _ => Except.error "x")
    [⟨"MONITORING_URL=../t/.env", Mode.explicit, "MONITORING_URL", "../t/.env", ""⟩]
    [⟨"monitoring_url", "/cfg", "", "", none⟩] ⟨[], []⟩ "MONITORING_URL").2
    ⟨"MONITORING_URL", "/t", "", "", true,
      "target-env explicit (MONITORING_URL=../t/.env)"⟩
    (by decide) (by decide)

/-! ## internal/app/linking.go: per-candidate resolution loop -/

/-- One successful rewrite (`app.linkRewrite`). -/
structure linkRewrite where
  SourceKey : String
  OldValue : String
  NewValue : String
  TargetRepo : String
  TargetKey : String
  PortSource : String
deriving Repr, DecidableEq

/-- World of external collaborators of `App.applyLinkRewrites`: the
process environment and walked dotenv entries, the option fields it reads,
and the effectful helpers (path resolution, directory stat, file reading,
`net/url`, git branch resolution, target lockfile reads and target scans)
as pure functions.  Branch results are modelled as a pure function of the
repository path, which makes the code's per-run branch cache and
source-branch memoization semantically transparent. -/
structure LinkWorld where
  environ : List String
  fileEntries : List (String × String)
  CWD : String
  Branch : String
  SeedBranch : Bool
  defaultRange : Range
  absPath : String → Except String String
  readFileLines : String → Except String (List String)
  dirOf : String → String
  urlParse : String → Except String URL
  render : URL → Int → String
  statIsDir : String → Bool
  resolveBranch : String → Except String String
  lockReadFor : String → LockRead
  scanFor : String → Except String (List String)

/-- Branch gate of the candidate loop (linking.go lines 92-111): when the
candidate requires same-branch, resolve the source branch (explicit
override or resolver at the current directory) and the target branch; any
failure or mismatch yields the warning that skips the candidate. -/
def branchGateWarn (W : LinkWorld) (c : rewriteCandidate) (targetRepo : String) :
    Option String :=
  if c.SameBranch then
    match (if trimSpace W.Branch ≠ "" then Except.ok (trimSpace W.Branch)
           else W.resolveBranch W.CWD) with
    | Except.error e => some (c.SourceDesc ++ ": source branch resolution failed: " ++ e)
    | Except.ok sb =>
      match W.resolveBranch targetRepo with
      | Except.error e =>
        some (c.SourceDesc ++ ": target branch resolution failed for "
          ++ targetRepo ++ ": " ++ e)
      | Except.ok tb =>
        if sb ≠ tb then
          some (c.SourceDesc ++ ": branch mismatch source=" ++ sb ++ " target=" ++ tb)
        else none
  else none

/-- One iteration of the candidate loop of `App.applyLinkRewrites`
(linking.go lines 70-135): the emitted warnings and the rewrite, if the
candidate succeeds.  Every failure path ends in `none` with at least the
failure warning appended. -/
def resolveCandidate (W : LinkWorld) (src : sourceValues) (c : rewriteCandidate) :
    List String × Option linkRewrite :=
  match src.lookup c.SourceKey with
  | none => ([c.SourceDesc ++ ": source key " ++ c.SourceKey ++ " not found"], none)
  | some (actualKey, oldValue) =>
    match parseLoopbackURL W.urlParse oldValue with
    | Except.error e =>
      ([c.SourceDesc ++ ": source key " ++ actualKey ++ " is not a localhost URL ("
        ++ e ++ ")"], none)
    | Except.ok _ =>
      match W.absPath c.TargetRepo with
      | Except.error e =>
        ([c.SourceDesc ++ ": resolve target repo " ++ c.TargetRepo ++ ": " ++ e], none)
      | Except.ok targetRepo =>
        if !W.statIsDir targetRepo then
          ([c.SourceDesc ++ ": target repo " ++ targetRepo ++ " is unavailable"], none)
        else
          match branchGateWarn W c targetRepo with
          | some w => ([w], none)
          | none =>
            let pr := resolveTargetPort W.defaultRange c targetRepo
              (W.lockReadFor targetRepo) (W.scanFor targetRepo) W.SeedBranch
              W.resolveBranch
            match pr.2 with
            | Except.error e =>
              (pr.1 ++ [c.SourceDesc ++ ": resolve target port for " ++ actualKey
                ++ " failed: " ++ e], none)
            | Except.ok (targetPort, targetKey, portSource) =>
              match replaceLoopbackURLPort W.urlParse W.render oldValue targetPort with
              | Except.error e =>
                (pr.1 ++ [c.SourceDesc ++ ": rewrite " ++ actualKey ++ " failed: "
                  ++ e], none)
              | Except.ok newValue =>
                (pr.1, some ⟨actualKey, oldValue, newValue, targetRepo, targetKey,
                  portSource⟩)

/-- Candidate loop of `App.applyLinkRewrites`: rewrites of the successful
candidates in order, with all warnings accumulated. -/
def applyRewriteLoop (W : LinkWorld) (src : sourceValues) :
    List rewriteCandidate → List linkRewrite × List String
  | [] => ([], [])
  | c :: cs =>
    let r := resolveCandidate W src c
    let rest := applyRewriteLoop W src cs
    match r.2 with
    | some rw => (rw :: rest.1, r.1 ++ rest.2)
    | none => (rest.1, r.1 ++ rest.2)

/-- Model of `App.applyLinkRewrites` (linking.go lines 38-138): collect the
source snapshot, build the candidates, then resolve them one by one; the
Go error component is always nil, which the `Except` result mirrors by
only ever returning `Except.ok`.  (The overrides map the Go code threads
along is keyed by each successful rewrite's source key with its new value
and is derivable from the rewrite list.) -/
def applyLinkRewrites (W : LinkWorld) (configLinks : List LinkRule)
    (targetSpecs : List TargetEnvSpec) :
    Except String (List linkRewrite × List String) :=
  if configLinks = [] ∧ targetSpecs = [] then Except.ok ([], [])
  else
    let sv := collectSourceValues W.environ W.fileEntries
    let bc := buildRewriteCandidates W.absPath W.readFileLines W.dirOf W.urlParse
      targetSpecs configLinks sv.1
    let warnings := sv.2 ++ bc.2
    if bc.1 = [] then Except.ok ([], warnings)
    else
      let lr := applyRewriteLoop W sv.1 bc.1
      Except.ok (lr.1, warnings ++ lr.2)

/-- C4: a failure while resolving one candidate produces a warning and
skips only that candidate: the loop's rewrites are exactly the successes
of every candidate with every warning accumulated, a failed candidate
always contributes at least one warning, and `applyLinkRewrites` never
returns an error. -/
theorem candidate_failures_warn_and_skip (W : LinkWorld)
    (configLinks : List LinkRule) (targetSpecs : List TargetEnvSpec)
    (src : sourceValues) (cands : List rewriteCandidate) :
    (∃ out, applyLinkRewrites W configLinks targetSpecs = Except.ok out) ∧
    (applyRewriteLoop W src cands =
      (cands.filterMap (fun c => (resolveCandidate W src c).2),
       cands.flatMap (fun c => (resolveCandidate W src c).1))) ∧
    (∀ c, (resolveCandidate W src c).2 = none → (resolveCandidate W src c).1 ≠ []) := by
  refine ⟨?_, ?_, ?_⟩
  · simp only [applyLinkRewrites]
    split
    · exact ⟨_, rfl⟩
    · split
      · exact ⟨_, rfl⟩
      · exact ⟨_, rfl⟩
  · induction cands with
    | nil => simp [applyRewriteLoop]
    | cons c cs ih =>
      simp only [applyRewriteLoop, ih, List.filterMap_cons, List.flatMap_cons]
      cases h : (resolveCandidate W src c).2 with
      | some rw => simp [h]
      | none => simp [h]
  · intro c h2
    simp only [resolveCandidate] at h2 ⊢
    cases hl : src.lookup c.SourceKey with
    | none => simp
    | some kv =>
      obtain ⟨actualKey, oldValue⟩ := kv
      simp only [hl] at h2 ⊢
      cases hp : parseLoopbackURL W.urlParse oldValue with
      | error e => simp
      | ok u =>
        simp only [hp] at h2 ⊢
        cases ha : W.absPath c.TargetRepo with
        | error e => simp
        | ok targetRepo =>
          simp only [ha] at h2 ⊢
          by_cases hs : W.statIsDir targetRepo
          · simp only [hs, Bool.not_true, Bool.false_eq_true, if_false] at h2 ⊢
            cases hb : branchGateWarn W c targetRepo with
            | some w => simp
            | none =>
              simp only [hb] at h2 ⊢
              cases hpr : (resolveTargetPort W.defaultRange c targetRepo
                  (W.lockReadFor targetRepo) (W.scanFor targetRepo) W.SeedBranch
                  W.resolveBranch).2 with
              | error e => simp
              | ok triple =>
                obtain ⟨targetPort, targetKey, portSource⟩ := triple
                simp only [hpr] at h2 ⊢
                cases hr : replaceLoopbackURLPort W.urlParse W.render oldValue
                    targetPort with
                | error e => simp
                | ok newValue =>
                  simp only [hr] at h2
                  exact absurd h2 (by simp)
          · simp only [hs, Bool.not_false] at h2 ⊢
            simp

/-- Witness for C4: a candidate whose source key is missing from the
snapshot fails with a non-empty warning list. -/
theorem candidate_failures_warn_and_skip_witness :
    (resolveCandidate ⟨[], [], "/p", "", false, ⟨10000, 20000⟩,
        fun _ => Except.error "x", fun _ => Except.error "x", fun _ => "/t",
        fun _ => Except.error "x", fun _ _ => "", fun _ => false,
        fun _ => Except.error "x", fun _ => LockRead.absent,
        fun _ => Except.error "x"⟩ ⟨[], []⟩
      ⟨"MONITORING_URL", "/t", "", "", false, "config link[0]"⟩).2 = none ∧
    (resolveCandidate ⟨[], [], "/p", "", false, ⟨10000, 20000⟩,
        fun _ => Except.error "x", fun _ => Except.error "x", fun _ => "/t",
        fun _ => Except.error "x", fun _ _ => "", fun _ => false,
        fun _ => Except.error "x", fun _ => LockRead.absent,
        fun _ => Except.error "x"⟩ ⟨[], []⟩
      ⟨"MONITORING_URL", "/t", "", "", false, "config link[0]"⟩).1 ≠ [] := by
  refine ⟨by rfl, ?_⟩
  exact (candidate_failures_warn_and_skip ⟨[], [], "/p", "", false, ⟨10000, 20000⟩,
      fun _ => Except.error "x", fun _ => Except.error "x", fun _ => "/t",
      fun _ => Except.error "x", fun _ _ => "", fun _ => false,
      fun _ => Except.error "x", fun _ => LockRead.absent,
      fun _ => Except.error "x"⟩ [] [] ⟨[], []⟩ []).2.2
    ⟨"MONITORING_URL", "/t", "", "", false, "config link[0]"⟩ (by rfl)
